import Mathlib

/-!
# Verification of the JSON-LD / RDF core of `json-ld-app`

This development shallowly embeds the algorithmic core of the repository:

* the RDF quad data model and the N-Quads serialization layer
  (`src/services/JsonLdProcessor.js`),
* the regex-based lenient N-Quads parser `parseNQuads` (same file),
* the URDNA2015-style canonicalization exposed as `canonize`,
* the context registry (`registerContext`), the custom document loader
  (`customLoader`, `fetchWithCorsRetry`, `normalizeContextDocument`),
* the lightweight SHACL validator (`validate` in the SHACL validator service),
* the `{success, data} / {success, error}` result discipline of every public
  transformation.

The repository delegates several algorithms (JSON-LD expansion, `toRDF`
serialization, URDNA2015 canonicalization, framing) to the external
`jsonld.js` library, whose code is not part of the repository.  Definitions
for those parts are modelled from the specification and are marked
`Modelled from the spec:` in their doc comments.  Everything written in the
repository itself (the N-Quads regex parser, the SHACL constraint loop, the
loader and registry, the normalization of fetched context documents) is
embedded directly from the source.
-/

/-! ## RDF data model

A quad is (subject, predicate, object, graph); subjects and graph names are
IRIs or blank nodes, predicates are IRIs, objects may also be literals
(lexical value + optional datatype IRI + optional language tag).
`graph = none` is the default graph. -/

/-- An RDF term that can appear in subject or graph position. -/
inductive Term where
  | iri (value : String)
  | blank (label : String)
deriving DecidableEq, Repr

/-- An RDF literal: lexical value, optional datatype IRI, optional language
tag.  (In N-Quads a language-tagged literal has implicit datatype
`rdf:langString`, and a literal with no datatype has implicit
`xsd:string`.) -/
structure Lit where
  value : String
  datatype : Option String
  lang : Option String
deriving DecidableEq, Repr

/-- An RDF object position term. -/
inductive Obj where
  | node (t : Term)
  | lit (l : Lit)
deriving DecidableEq, Repr

/-- An RDF quad. -/
structure Quad where
  subject : Term
  predicate : String
  object : Obj
  graph : Option Term
deriving DecidableEq, Repr

/-! ## N-Quads serialization

Modelled from the spec: the `toNQuads` serializer of the repository calls
`jsonld.toRDF(doc, {format: 'application/n-quads'})` of the external
`jsonld.js` library, which is not part of the repository.  The spec fixes
the grammar: one line per quad, `subject predicate object [graph] .`,
literals escape `\`, `"` and newline, language tags lowercase, datatype
IRIs always explicit except the implicit `xsd:string` default, which is
omitted. -/

/-- The `xsd:string` datatype IRI, omitted by the serializer. -/
def xsdString : String := "http://www.w3.org/2001/XMLSchema#string"

/-- Escape a literal lexical value for N-Quads: `\`, `"` and newline are
escaped (per the spec's grammar for `toNQuads`). -/
def escapeChars : List Char → List Char
  | [] => []
  | c :: rest =>
    if c = '\\' then '\\' :: '\\' :: escapeChars rest
    else if c = '"' then '\\' :: '"' :: escapeChars rest
    else if c = '\n' then '\\' :: 'n' :: escapeChars rest
    else c :: escapeChars rest

/-- Lowercase a language tag (the spec: "language tags lowercase"). -/
def lowerTag (s : String) : String := ⟨s.data.map Char.toLower⟩

/-- N-Quads text of a subject/graph term: `<iri>` or `_:label`. -/
def termNQChars : Term → List Char
  | .iri s => '<' :: s.data ++ ['>']
  | .blank b => '_' :: ':' :: b.data

/-- N-Quads text of a literal: quoted escaped value, then `@tag` for a
language-tagged literal, else `^^<datatype>` unless the datatype is the
implicit `xsd:string`. -/
def litNQChars (l : Lit) : List Char :=
  '"' :: escapeChars l.value.data ++ ['"'] ++
    (match l.lang with
     | some t => '@' :: (lowerTag t).data
     | none =>
       match l.datatype with
       | some d => if d = xsdString then [] else '^' :: '^' :: '<' :: d.data ++ ['>']
       | none => [])

/-- N-Quads text of an object term. -/
def objNQChars : Obj → List Char
  | .node t => termNQChars t
  | .lit l => litNQChars l

/-- One N-Quads line (without the trailing newline):
`subject predicate object [graph] .`. -/
def quadLineChars (q : Quad) : List Char :=
  termNQChars q.subject ++ [' '] ++ ('<' :: q.predicate.data ++ ['>']) ++ [' '] ++
    objNQChars q.object ++
    (match q.graph with
     | some g => ' ' :: termNQChars g
     | none => []) ++ [' ', '.']

/-- The character stream of the serialized quad list: one line per quad,
each terminated by a newline. -/
def toNQuadsChars (Q : List Quad) : List Char :=
  (Q.map (fun q => quadLineChars q ++ ['\n'])).flatten

/-- Modelled from the spec: `toNQuads`' serialization payload (the
repository's `toNQuads` wraps `jsonld.toRDF`, which is external). -/
def toNQuads (Q : List Quad) : String := ⟨toNQuadsChars Q⟩

/-! ## The lenient N-Quads parser (embedded from the source)

`parseNQuads` (JsonLdProcessor.js, lines 390-413) splits on `'\n'`,
drops blank lines, and matches each line against the regex

`^(<[^>]+>|_:[^\s]+)\s+(<[^>]+>)\s+(<[^>]+>|_:[^\s]+|"[^"]*"(?:\^\^<[^>]+>)?(?:@[a-z-]+)?)\s*(<[^>]+>)?\s*\.$`

A line that fails the regex is skipped (lenient).  The matcher below is a
direct embedding of that regex: alternations are tried in written order and
each quantifier is greedy, with backtracking realized by candidate lists in
priority order (first success wins, exactly as a backtracking regex
engine). -/

/-- JavaScript's `\s` character class (the subset that can occur on a
single line of text; `\n` cannot occur inside a line after `split('\n')`,
but is included for fidelity). -/
def isJsWs (c : Char) : Bool :=
  c = ' ' || c = '\t' || c = '\n' || c = '\r' || c = '\x0b' || c = '\x0c'

/-- Embedding of `String.prototype.split('\n')`. -/
def splitLines : List Char → List (List Char)
  | [] => [[]]
  | c :: rest =>
    if c = '\n' then [] :: splitLines rest
    else
      match splitLines rest with
      | [] => [[c]]
      | l :: ls => (c :: l) :: ls

/-- Embedding of the `filter(line => line.trim())` guard: a line is kept iff
its trim is a non-empty (truthy) string, i.e. iff it has a non-whitespace
character. -/
def hasContent (l : List Char) : Bool := l.any (fun c => !isJsWs c)

/-- `<[^>]+>`: deterministic (the body stops at the first `>`).  The capture
includes the angle brackets, as a regex group capture does. -/
def pIri (cs : List Char) : Option (List Char × List Char) :=
  match cs with
  | [] => none
  | c :: rest =>
    if c = '<' then
      let body := rest.takeWhile (fun x => !(x = '>'))
      let rest2 := rest.dropWhile (fun x => !(x = '>'))
      if body.isEmpty then none
      else
        match rest2 with
        | [] => none
        | c2 :: rest3 => if c2 = '>' then some ('<' :: body ++ ['>'], rest3) else none
    else none

/-- All the ways a greedy `X+` can split a maximal run: longest first, each
candidate taking at least one character (backtracking order of a regex
engine). -/
def greedySplits (run rest : List Char) : List (List Char × List Char) :=
  (List.range run.length).map fun k =>
    let n := run.length - k
    (run.take n, run.drop n ++ rest)

/-- `_:[^\s]+` with greedy backtracking candidates. -/
def pBlank (cs : List Char) : List (List Char × List Char) :=
  match cs with
  | c1 :: c2 :: rest =>
    if c1 = '_' ∧ c2 = ':' then
      let run := rest.takeWhile (fun c => !isJsWs c)
      let rest2 := rest.dropWhile (fun c => !isJsWs c)
      (greedySplits run rest2).map fun p => ('_' :: ':' :: p.1, p.2)
    else []
  | _ => []

/-- `\s+`: candidate remainders, greedy (longest eaten first), at least one
whitespace character. -/
def pWs1 (cs : List Char) : List (List Char) :=
  let run := cs.takeWhile isJsWs
  let rest := cs.dropWhile isJsWs
  (greedySplits run rest).map Prod.snd

/-- `\s*`: like `\s+` but with the zero-width candidate last. -/
def pWs0 (cs : List Char) : List (List Char) := pWs1 cs ++ [cs]

/-- `"[^"]*"`: deterministic (the body stops at the first `"`; it may be
empty). -/
def pLitBase (cs : List Char) : Option (List Char × List Char) :=
  match cs with
  | [] => none
  | c :: rest =>
    if c = '"' then
      let body := rest.takeWhile (fun x => !(x = '"'))
      let rest2 := rest.dropWhile (fun x => !(x = '"'))
      match rest2 with
      | [] => none
      | c2 :: rest3 => if c2 = '"' then some ('"' :: body ++ ['"'], rest3) else none
    else none

/-- `(?:\^\^<[^>]+>)?`: matching candidate first (greedy), then skip. -/
def pDtOpt (cs : List Char) : List (List Char × List Char) :=
  (match cs with
   | c1 :: c2 :: rest =>
     if c1 = '^' ∧ c2 = '^' then
       match pIri rest with
       | some (cap, r) => [('^' :: '^' :: cap, r)]
       | none => []
     else []
   | _ => []) ++ [([], cs)]

/-- The `[a-z-]` character class. -/
def isTagChar (c : Char) : Bool := ('a' ≤ c && c ≤ 'z') || c = '-'

/-- `(?:@[a-z-]+)?`: greedy matching candidates first, then skip. -/
def pLangOpt (cs : List Char) : List (List Char × List Char) :=
  (match cs with
   | c :: rest =>
     if c = '@' then
       let run := rest.takeWhile isTagChar
       let rest2 := rest.dropWhile isTagChar
       (greedySplits run rest2).map fun p => ('@' :: p.1, p.2)
     else []
   | [] => []) ++ [([], cs)]

/-- `(<[^>]+>)?`: the graph capture group, matching candidate first. -/
def pGraphOpt (cs : List Char) : List (Option (List Char) × List Char) :=
  (match pIri cs with
   | some (cap, r) => [(some cap, r)]
   | none => []) ++ [(none, cs)]

/-- Subject alternation `(<[^>]+>|_:[^\s]+)`, in written order. -/
def pSubject (cs : List Char) : List (List Char × List Char) :=
  (match pIri cs with
   | some p => [p]
   | none => []) ++ pBlank cs

/-- Object alternation `(<[^>]+>|_:[^\s]+|"[^"]*"(?:\^\^<[^>]+>)?(?:@[a-z-]+)?)`,
in written order, with the optional-group candidates in regex backtracking
order. -/
def pObject (cs : List Char) : List (List Char × List Char) :=
  (match pIri cs with
   | some p => [p]
   | none => []) ++
  pBlank cs ++
  (match pLitBase cs with
   | some (cap, r) =>
     (pDtOpt r).flatMap fun p2 =>
       (pLangOpt p2.2).map fun p3 => (cap ++ p2.1 ++ p3.1, p3.2)
   | none => [])

/-- `\s*(<[^>]+>)?\s*\.$`: the tail of the regex after the object; returns
the graph capture on success. -/
def pTail (cs : List Char) : Option (Option (List Char)) :=
  (pWs0 cs).findSome? fun r1 =>
    (pGraphOpt r1).findSome? fun gr =>
      (pWs0 gr.2).findSome? fun r3 =>
        if r3 = ['.'] then some gr.1 else none

/-- Match one line against the full regex; captures
(subject, predicate, object, optional graph). -/
def matchLine (cs : List Char) : Option (String × String × String × Option String) :=
  (pSubject cs).findSome? fun sp =>
    (pWs1 sp.2).findSome? fun r2 =>
      match pIri r2 with
      | none => none
      | some (pr, r3) =>
        (pWs1 r3).findSome? fun r4 =>
          (pObject r4).findSome? fun op =>
            match pTail op.2 with
            | some g => some (⟨sp.1⟩, ⟨pr⟩, ⟨op.1⟩, g.map fun gc => (⟨gc⟩ : String))
            | none => none

/-- Embedding of `cleanTerm` (JsonLdProcessor.js, lines 418-424): strip the
angle brackets when the term both starts with `<` and ends with `>`;
otherwise return it unchanged (the empty string is returned unchanged,
matching the `if (!term) return ''` guard). -/
def cleanTerm (t : String) : String :=
  if t.data.head? = some '<' ∧ t.data.getLast? = some '>' ∧ t.data.length ≥ 2 then
    ⟨(t.data.drop 1).dropLast⟩
  else t

/-- A parsed triple as produced by `parseNQuads`: four strings, with
`graph = "default"` when the optional graph group did not match. -/
structure ParsedTriple where
  subject : String
  predicate : String
  object : String
  graph : String
deriving DecidableEq, Repr

/-- The per-line payload of `parseNQuads`: each captured term is cleaned,
and an absent graph capture becomes `"default"`. -/
def lineTriple (m : String × String × String × Option String) : ParsedTriple :=
  { subject := cleanTerm m.1
    predicate := cleanTerm m.2.1
    object := cleanTerm m.2.2.1
    graph :=
      match m.2.2.2 with
      | some g => cleanTerm g
      | none => "default" }

/-- Embedding of `parseNQuads` (JsonLdProcessor.js, lines 390-413): split on
newlines, keep lines with content, keep the lines that match the regex, and
clean each captured term. -/
def parseNQuads (s : String) : List ParsedTriple :=
  ((splitLines s.data).filter hasContent).filterMap fun line =>
    (matchLine line).map lineTriple

/-! ## Relating serialized quads and parsed triples

`parseNQuads` produces the textual components of each quad with angle
brackets stripped: an IRI becomes its bare text, a blank node keeps its
`_:` form, a literal keeps its full quoted N-Quads text, and an absent
graph becomes the string `"default"`.  `quadToTriple` is that
interpretation of a quad. -/

/-- The text `parseNQuads` yields for a subject/graph term. -/
def termText : Term → String
  | .iri s => s
  | .blank b => "_:" ++ b

/-- The text `parseNQuads` yields for an object term. -/
def objText : Obj → String
  | .node t => termText t
  | .lit l => ⟨litNQChars l⟩

/-- The parsed triple corresponding to a source quad. -/
def quadToTriple (q : Quad) : ParsedTriple :=
  { subject := termText q.subject
    predicate := q.predicate
    object := objText q.object
    graph :=
      match q.graph with
      | some g => termText g
      | none => "default" }

/-! ### Well-formedness conditions for the round trip

The round trip `parseNQuads (toNQuads Q)` does not preserve every quad (see
the counterexample theorems further below); it does under the following
conditions, which hold for the quads `toQuads` produces from ordinary
documents: IRIs are non-empty and contain no `>` and no newline, blank-node
labels are non-empty and contain no whitespace, literal values contain no
double quote, language tags are non-empty and consist of lowercase letters
and hyphens, and graph names are IRIs (or absent). -/

/-- A serializable IRI: non-empty, no `>`, no newline. -/
def wfIri (s : String) : Bool :=
  !s.data.isEmpty && s.data.all (fun c => !(c = '>') && !(c = '\n'))

/-- A serializable blank-node label: non-empty, no whitespace. -/
def wfBlankLabel (b : String) : Bool :=
  !b.data.isEmpty && b.data.all (fun c => !isJsWs c)

/-- A serializable subject/graph term. -/
def wfTerm : Term → Bool
  | .iri s => wfIri s
  | .blank b => wfBlankLabel b

/-- A literal surviving the round trip: no `"` in the value; a language tag
(if any) is non-empty, lowercase letters and hyphens; a datatype (if any,
and no language tag) is a serializable IRI. -/
def wfLit (l : Lit) : Bool :=
  l.value.data.all (fun c => !(c = '"')) &&
  (match l.lang with
   | some t => !t.data.isEmpty && t.data.all isTagChar
   | none =>
     match l.datatype with
     | some d => wfIri d
     | none => true)

/-- A serializable object term. -/
def wfObj : Obj → Bool
  | .node t => wfTerm t
  | .lit l => wfLit l

/-- A quad surviving the round trip; the graph, when present, must be an
IRI (the parser's regex only accepts `<...>` graph labels). -/
def wfQuad (q : Quad) : Bool :=
  wfTerm q.subject && wfIri q.predicate && wfObj q.object &&
  (match q.graph with
   | none => true
   | some (.iri g) => wfIri g
   | some (.blank _) => false)

/-! ### Helper lemmas about the token parsers -/

theorem takeWhile_middle {p : Char → Bool} {a : List Char} {b : Char} {r : List Char}
    (ha : ∀ c ∈ a, p c = true) (hb : p b = false) :
    (a ++ b :: r).takeWhile p = a := by
  induction a with
  | nil => simp [List.takeWhile_cons, hb]
  | cons x t ih =>
    have hx := ha x (by simp)
    simp only [List.cons_append, List.takeWhile_cons, hx]
    exact congrArg (x :: ·) (ih fun c hc => ha c (by simp [hc]))

theorem dropWhile_middle {p : Char → Bool} {a : List Char} {b : Char} {r : List Char}
    (ha : ∀ c ∈ a, p c = true) (hb : p b = false) :
    (a ++ b :: r).dropWhile p = b :: r := by
  induction a with
  | nil => simp [List.dropWhile_cons, hb]
  | cons x t ih =>
    have hx := ha x (by simp)
    simp only [List.cons_append, List.dropWhile_cons, hx]
    exact ih fun c hc => ha c (by simp [hc])

theorem findSome?_cons_some {α β : Type} {f : α → Option β} {x : α} {t : List α} {v : β}
    (h : f x = some v) : List.findSome? f (x :: t) = some v := by
  simp [List.findSome?_cons, h]

/-- `<[^>]+>` on a well-formed bracketed IRI followed by anything. -/
theorem pIri_exact {s : List Char} {z : List Char}
    (h1 : s ≠ []) (h2 : ∀ c ∈ s, ¬(c = '>')) :
    pIri ('<' :: (s ++ '>' :: z)) = some ('<' :: s ++ ['>'], z) := by
  have ht : (s ++ '>' :: z).takeWhile (fun x => !(x = '>')) = s :=
    takeWhile_middle (fun c hc => by simpa using h2 c hc) (by simp)
  have hd : (s ++ '>' :: z).dropWhile (fun x => !(x = '>')) = '>' :: z :=
    dropWhile_middle (fun c hc => by simpa using h2 c hc) (by simp)
  simp only [pIri]
  rw [ht, hd]
  simp [h1]

theorem pIri_not_lt {c : Char} {cs : List Char} (h : ¬(c = '<')) :
    pIri (c :: cs) = none := by
  simp [pIri, h]

theorem greedySplits_full {run z : List Char} (h : run ≠ []) :
    ∃ t, greedySplits run z = (run, z) :: t := by
  obtain ⟨n, hn⟩ : ∃ n, run.length = n + 1 :=
    ⟨run.length - 1, by have := List.length_pos.2 h; omega⟩
  refine ⟨((List.range n).map Nat.succ).map fun k =>
    (run.take (run.length - k), run.drop (run.length - k) ++ z), ?_⟩
  unfold greedySplits
  rw [hn, List.range_succ_eq_map, List.map_cons]
  congr 1
  simp [← hn]

theorem pBlank_none1 {c1 : Char} {cs : List Char} (h : ¬(c1 = '_')) :
    pBlank (c1 :: cs) = [] := by
  cases cs with
  | nil => rfl
  | cons c2 t => simp [pBlank, h]

theorem pBlank_full {b : List Char} {c : Char} {w : List Char}
    (hb1 : b ≠ []) (hb2 : ∀ x ∈ b, isJsWs x = false) (hc : isJsWs c = true) :
    ∃ t, pBlank ('_' :: ':' :: (b ++ c :: w)) = ('_' :: ':' :: b, c :: w) :: t := by
  have ht : (b ++ c :: w).takeWhile (fun x => !isJsWs x) = b :=
    takeWhile_middle (fun x hx => by simp [hb2 x hx]) (by simp [hc])
  have hd : (b ++ c :: w).dropWhile (fun x => !isJsWs x) = c :: w :=
    dropWhile_middle (fun x hx => by simp [hb2 x hx]) (by simp [hc])
  obtain ⟨t, htl⟩ := greedySplits_full (z := c :: w) hb1
  refine ⟨t.map fun p => ('_' :: ':' :: p.1, p.2), ?_⟩
  simp only [pBlank]
  rw [ht, hd, htl]
  simp

theorem pWs1_space {l : List Char} (h : ∀ c, l.head? = some c → isJsWs c = false) :
    pWs1 (' ' :: l) = [l] := by
  cases l with
  | nil => rfl
  | cons d t =>
    have hd : isJsWs d = false := h d rfl
    have ht : (' ' :: d :: t).takeWhile isJsWs = [' '] :=
      takeWhile_middle (a := [' ']) (fun c hc => by
        simp at hc; subst hc; rfl) hd
    have hdr : (' ' :: d :: t).dropWhile isJsWs = d :: t :=
      dropWhile_middle (a := [' ']) (fun c hc => by
        simp at hc; subst hc; rfl) hd
    have hr : List.range 1 = [0] := rfl
    simp [pWs1, ht, hdr, greedySplits, hr]

theorem pWs0_space {l : List Char} (h : ∀ c, l.head? = some c → isJsWs c = false) :
    pWs0 (' ' :: l) = [l, ' ' :: l] := by
  simp [pWs0, pWs1_space h]

theorem pWs1_nows {l : List Char} (h : ∀ c, l.head? = some c → isJsWs c = false) :
    pWs1 l = [] := by
  cases l with
  | nil => rfl
  | cons d t =>
    have hd : isJsWs d = false := h d rfl
    simp [pWs1, List.takeWhile_cons, hd, greedySplits]

theorem pWs0_nows {l : List Char} (h : ∀ c, l.head? = some c → isJsWs c = false) :
    pWs0 l = [l] := by
  simp [pWs0, pWs1_nows h]

theorem pLitBase_exact {body z : List Char} (hb : ∀ c ∈ body, ¬(c = '"')) :
    pLitBase ('"' :: (body ++ '"' :: z)) = some ('"' :: body ++ ['"'], z) := by
  have ht : (body ++ '"' :: z).takeWhile (fun x => !(x = '"')) = body :=
    takeWhile_middle (fun c hc => by simpa using hb c hc) (by simp)
  have hd : (body ++ '"' :: z).dropWhile (fun x => !(x = '"')) = '"' :: z :=
    dropWhile_middle (fun c hc => by simpa using hb c hc) (by simp)
  simp only [pLitBase]
  rw [ht, hd]
  simp

theorem pDtOpt_nocaret {c : Char} {cs : List Char} (h : ¬(c = '^')) :
    pDtOpt (c :: cs) = [([], c :: cs)] := by
  cases cs with
  | nil => rfl
  | cons c2 t => simp [pDtOpt, h]

theorem pDtOpt_take {d rest : List Char} (hd1 : d ≠ []) (hd2 : ∀ c ∈ d, ¬(c = '>')) :
    pDtOpt ('^' :: '^' :: '<' :: (d ++ '>' :: rest)) =
      [('^' :: '^' :: ('<' :: d ++ ['>']), rest), ([], '^' :: '^' :: '<' :: (d ++ '>' :: rest))] := by
  simp [pDtOpt, pIri_exact hd1 hd2]

theorem pLangOpt_noat {c : Char} {cs : List Char} (h : ¬(c = '@')) :
    pLangOpt (c :: cs) = [([], c :: cs)] := by
  simp [pLangOpt, h]

theorem pLangOpt_take {tag : List Char} {c : Char} {w : List Char}
    (ht1 : tag ≠ []) (ht2 : ∀ x ∈ tag, isTagChar x = true) (hc : isTagChar c = false) :
    ∃ t, pLangOpt ('@' :: (tag ++ c :: w)) = ('@' :: tag, c :: w) :: t := by
  have ht : (tag ++ c :: w).takeWhile isTagChar = tag := takeWhile_middle ht2 hc
  have hd : (tag ++ c :: w).dropWhile isTagChar = c :: w := dropWhile_middle ht2 hc
  obtain ⟨t, htl⟩ := greedySplits_full (z := c :: w) ht1
  refine ⟨(t.map fun p => ('@' :: p.1, p.2)) ++ [([], '@' :: (tag ++ c :: w))], ?_⟩
  simp only [pLangOpt]
  rw [ht, hd, htl]
  simp

theorem pGraphOpt_noiri {cs : List Char} (h : pIri cs = none) :
    pGraphOpt cs = [(none, cs)] := by
  simp [pGraphOpt, h]

theorem pGraphOpt_iri {cs cap r : List Char} (h : pIri cs = some (cap, r)) :
    pGraphOpt cs = [(some cap, r), (none, cs)] := by
  simp [pGraphOpt, h]

/-- Escaping a quote-free value yields characters that are neither `"` nor
newline (so the escaped body fits the regex's `[^"]*` and stays on one
line). -/
theorem escapeChars_safe {v : List Char} (h : ∀ c ∈ v, ¬(c = '"')) :
    ∀ c ∈ escapeChars v, ¬(c = '"') ∧ ¬(c = '\n') := by
  induction v with
  | nil => simp [escapeChars]
  | cons x t ih =>
    have hx : ¬(x = '"') := h x (by simp)
    have ht : ∀ c ∈ t, ¬(c = '"') := fun c hc => h c (by simp [hc])
    intro c hc
    by_cases h1 : x = '\\'
    · subst h1
      simp only [escapeChars, if_pos rfl] at hc
      rcases List.mem_cons.mp hc with h' | h'
      · exact h' ▸ ⟨by decide, by decide⟩
      · rcases List.mem_cons.mp h' with h2 | h2
        · exact h2 ▸ ⟨by decide, by decide⟩
        · exact ih ht c h2
    · by_cases h3 : x = '\n'
      · subst h3
        simp only [escapeChars, if_neg h1, if_neg hx, if_pos rfl] at hc
        rcases List.mem_cons.mp hc with h' | h'
        · exact h' ▸ ⟨by decide, by decide⟩
        · rcases List.mem_cons.mp h' with h2 | h2
          · exact h2 ▸ ⟨by decide, by decide⟩
          · exact ih ht c h2
      · simp only [escapeChars, if_neg h1, if_neg hx, if_neg h3] at hc
        rcases List.mem_cons.mp hc with h' | h'
        · exact h' ▸ ⟨hx, h3⟩
        · exact ih ht c h'

/-- `Char.toLower` fixes the characters of the class `[a-z-]`. -/
theorem toLower_tagChar {c : Char} (h : isTagChar c = true) : c.toLower = c := by
  simp only [isTagChar, Bool.or_eq_true, Bool.and_eq_true, decide_eq_true_eq] at h
  unfold Char.toLower
  rw [if_neg]
  rcases h with ⟨h1, _⟩ | h1
  · have : 97 ≤ c.toNat := by
      have := h1
      simp only [Char.le_def] at this
      exact this
    omega
  · subst h1
    decide

/-- Lowercasing fixes an already-lowercase tag. -/
theorem lowerTag_fixed {t : String} (h : ∀ c ∈ t.data, isTagChar c = true) :
    (lowerTag t).data = t.data := by
  simp only [lowerTag]
  exact List.map_congr_left (fun c hc => toLower_tagChar (h c hc)) |>.trans (List.map_id _)

theorem cleanTerm_brackets (s : String) :
    cleanTerm ⟨'<' :: s.data ++ ['>']⟩ = s := by
  have h1 : ('<' :: s.data ++ ['>']).head? = some '<' := rfl
  have h2 : ('<' :: s.data ++ ['>']).getLast? = some '>' := by
    rw [show '<' :: s.data ++ ['>'] = ('<' :: s.data) ++ ['>'] from rfl]
    exact List.getLast?_concat _
  have h3 : ('<' :: s.data ++ ['>']).length ≥ 2 := by simp
  unfold cleanTerm
  rw [if_pos ⟨h1, h2, h3⟩]
  show String.mk ((s.data ++ ['>']).dropLast) = s
  rw [List.dropLast_concat]

theorem cleanTerm_nonlt {t : String} (h : ¬(t.data.head? = some '<')) :
    cleanTerm t = t := by
  simp only [cleanTerm]
  rw [if_neg]
  intro hcon
  exact h hcon.1

/-! ### The subject, object and tail steps on a serialized line -/

theorem pSubject_parse {s : Term} {r : List Char} (h : wfTerm s = true) :
    ∃ t, pSubject (termNQChars s ++ ' ' :: r) = (termNQChars s, ' ' :: r) :: t := by
  cases s with
  | iri v =>
    simp only [wfTerm, wfIri, Bool.and_eq_true, List.all_eq_true] at h
    obtain ⟨h1, h2⟩ := h
    have hne : v.data ≠ [] := by simpa using h1
    have hgt : ∀ c ∈ v.data, ¬(c = '>') := fun c hc => by
      have := h2 c hc
      simp only [Bool.and_eq_true, Bool.not_eq_true', decide_eq_false_iff_not] at this
      exact this.1
    refine ⟨pBlank (termNQChars (.iri v) ++ ' ' :: r), ?_⟩
    have : termNQChars (Term.iri v) ++ ' ' :: r = '<' :: (v.data ++ '>' :: (' ' :: r)) := by
      simp [termNQChars]
    rw [this]
    simp [pSubject, pIri_exact hne hgt, termNQChars]
  | blank b =>
    simp only [wfTerm, wfBlankLabel, Bool.and_eq_true, List.all_eq_true] at h
    obtain ⟨h1, h2⟩ := h
    have hne : b.data ≠ [] := by simpa using h1
    have hnw : ∀ c ∈ b.data, isJsWs c = false := fun c hc => by
      have := h2 c hc
      simpa using this
    have heq : termNQChars (Term.blank b) ++ ' ' :: r = '_' :: ':' :: (b.data ++ ' ' :: r) := by
      simp [termNQChars]
    obtain ⟨t, ht⟩ := pBlank_full (c := ' ') (w := r) hne hnw (by decide)
    refine ⟨t, ?_⟩
    rw [heq]
    have hni : pIri ('_' :: ':' :: (b.data ++ ' ' :: r)) = none := pIri_not_lt (by decide)
    simp [pSubject, hni, ht, termNQChars]

theorem pObject_parse {o : Obj} {w : List Char} (h : wfObj o = true) :
    ∃ t, pObject (objNQChars o ++ ' ' :: w) = (objNQChars o, ' ' :: w) :: t := by
  cases o with
  | node s =>
    obtain ⟨t, ht⟩ := pSubject_parse (r := w) h
    cases s with
    | iri v =>
      refine ⟨pBlank (termNQChars (.iri v) ++ ' ' :: w) ++
        (match pLitBase (termNQChars (.iri v) ++ ' ' :: w) with
         | some (cap, r) =>
           (pDtOpt r).flatMap fun p2 =>
             (pLangOpt p2.2).map fun p3 => (cap ++ p2.1 ++ p3.1, p3.2)
         | none => []), ?_⟩
      simp only [pSubject] at ht
      have hne : v.data ≠ [] := by
        simp only [wfObj, wfTerm, wfIri, Bool.and_eq_true] at h
        simpa using h.1
      have hgt : ∀ c ∈ v.data, ¬(c = '>') := fun c hc => by
        simp only [wfObj, wfTerm, wfIri, Bool.and_eq_true, List.all_eq_true] at h
        have := h.2 c hc
        simp only [Bool.and_eq_true, Bool.not_eq_true', decide_eq_false_iff_not] at this
        exact this.1
      have heq : termNQChars (Term.iri v) ++ ' ' :: w = '<' :: (v.data ++ '>' :: (' ' :: w)) := by
        simp [termNQChars]
      rw [show objNQChars (Obj.node (Term.iri v)) = termNQChars (Term.iri v) from rfl]
      simp only [pObject, heq, pIri_exact hne hgt]
      simp [termNQChars]
    | blank b =>
      have hni : pIri (termNQChars (.blank b) ++ ' ' :: w) = none := by
        simp only [termNQChars, List.cons_append]
        exact pIri_not_lt (by decide)
      simp only [pSubject, hni, List.nil_append] at ht
      have hlb : pLitBase (termNQChars (.blank b) ++ ' ' :: w) = none := by
        simp only [termNQChars, List.cons_append]
        simp [pLitBase]
      refine ⟨t ++
        (match pLitBase (termNQChars (.blank b) ++ ' ' :: w) with
         | some (cap, r) =>
           (pDtOpt r).flatMap fun p2 =>
             (pLangOpt p2.2).map fun p3 => (cap ++ p2.1 ++ p3.1, p3.2)
         | none => []), ?_⟩
      rw [show objNQChars (Obj.node (Term.blank b)) = termNQChars (Term.blank b) from rfl]
      simp only [pObject, hni, hlb, List.nil_append, ht]
      simp
  | lit l =>
    have hval : ∀ c ∈ l.value.data, ¬(c = '"') := by
      simp only [wfObj, wfLit, Bool.and_eq_true, List.all_eq_true] at h
      intro c hc
      have := h.1 c hc
      simpa using this
    have hesc : ∀ c ∈ escapeChars l.value.data, ¬(c = '"') :=
      fun c hc => (escapeChars_safe hval c hc).1
    have hobj : ∀ Z : List Char,
        pObject ('"' :: (escapeChars l.value.data ++ '"' :: Z)) =
          (pDtOpt Z).flatMap fun p2 =>
            (pLangOpt p2.2).map fun p3 =>
              (('"' :: escapeChars l.value.data ++ ['"']) ++ p2.1 ++ p3.1, p3.2) := by
      intro Z
      have hni : pIri ('"' :: (escapeChars l.value.data ++ '"' :: Z)) = none :=
        pIri_not_lt (by decide)
      have hnb : pBlank ('"' :: (escapeChars l.value.data ++ '"' :: Z)) = [] :=
        pBlank_none1 (by decide)
      have hlb := pLitBase_exact (z := Z) hesc
      simp [pObject, hni, hnb, hlb]
    cases hlang : l.lang with
    | some tg =>
      have htag : tg.data ≠ [] ∧ ∀ c ∈ tg.data, isTagChar c = true := by
        simp only [wfObj, wfLit, hlang, Bool.and_eq_true, List.all_eq_true] at h
        exact ⟨by simpa using h.2.1, h.2.2⟩
      have hlow : (lowerTag tg).data = tg.data := lowerTag_fixed htag.2
      have hshape : objNQChars (Obj.lit l) ++ ' ' :: w =
          '"' :: (escapeChars l.value.data ++ '"' :: ('@' :: (tg.data ++ ' ' :: w))) := by
        simp [objNQChars, litNQChars, hlang, hlow]
      obtain ⟨tl, hlo⟩ := pLangOpt_take (c := ' ') (w := w) htag.1 htag.2 (by decide)
      have hdt : pDtOpt ('@' :: (tg.data ++ ' ' :: w)) = [([], '@' :: (tg.data ++ ' ' :: w))] :=
        pDtOpt_nocaret (by decide)
      have hcap : '"' :: escapeChars l.value.data ++ ['"'] ++ '@' :: tg.data =
          objNQChars (Obj.lit l) := by
        simp [objNQChars, litNQChars, hlang, hlow]
      refine ⟨tl.map fun p3 =>
          ('"' :: escapeChars l.value.data ++ ['"'] ++ p3.1, p3.2), ?_⟩
      rw [hshape, hobj, hdt]
      simp only [List.flatMap_cons, List.flatMap_nil, List.append_nil, hlo, List.map_cons]
      rw [hcap]
    | none =>
      cases hdtv : l.datatype with
      | some d =>
        by_cases hxs : d = xsdString
        · have hshape : objNQChars (Obj.lit l) ++ ' ' :: w =
              '"' :: (escapeChars l.value.data ++ '"' :: (' ' :: w)) := by
            simp [objNQChars, litNQChars, hlang, hdtv, hxs]
          have hcap : '"' :: escapeChars l.value.data ++ ['"'] =
              objNQChars (Obj.lit l) := by
            simp [objNQChars, litNQChars, hlang, hdtv, hxs]
          refine ⟨[], ?_⟩
          rw [hshape, hobj, pDtOpt_nocaret (by decide)]
          simp only [List.flatMap_cons, List.flatMap_nil, List.append_nil,
            pLangOpt_noat (c := ' ') (by decide), List.map_cons, List.map_nil]
          rw [hcap]
        · have hdw : wfIri d = true := by
            simp only [wfObj, wfLit, hlang, hdtv, Bool.and_eq_true] at h
            exact h.2
          have hdne : d.data ≠ [] := by
            simp only [wfIri, Bool.and_eq_true] at hdw
            simpa using hdw.1
          have hdgt : ∀ c ∈ d.data, ¬(c = '>') := fun c hc => by
            simp only [wfIri, Bool.and_eq_true, List.all_eq_true] at hdw
            have := hdw.2 c hc
            simp only [Bool.and_eq_true, Bool.not_eq_true', decide_eq_false_iff_not] at this
            exact this.1
          have hshape : objNQChars (Obj.lit l) ++ ' ' :: w =
              '"' :: (escapeChars l.value.data ++ '"' ::
                ('^' :: '^' :: '<' :: (d.data ++ '>' :: (' ' :: w)))) := by
            simp [objNQChars, litNQChars, hlang, hdtv, hxs]
          have hcap : '"' :: escapeChars l.value.data ++ ['"'] ++
              '^' :: '^' :: ('<' :: d.data ++ ['>']) = objNQChars (Obj.lit l) := by
            simp [objNQChars, litNQChars, hlang, hdtv, hxs]
          refine ⟨[('"' :: escapeChars l.value.data ++ ['"'],
              '^' :: '^' :: '<' :: (d.data ++ '>' :: ' ' :: w))], ?_⟩
          rw [hshape, hobj, pDtOpt_take hdne hdgt]
          simp only [List.flatMap_cons, List.flatMap_nil, List.append_nil,
            pLangOpt_noat (c := ' ') (by decide),
            pLangOpt_noat (c := '^') (by decide), List.map_cons, List.map_nil]
          rw [hcap]
          rfl
      | none =>
        have hshape : objNQChars (Obj.lit l) ++ ' ' :: w =
            '"' :: (escapeChars l.value.data ++ '"' :: (' ' :: w)) := by
          simp [objNQChars, litNQChars, hlang, hdtv]
        have hcap : '"' :: escapeChars l.value.data ++ ['"'] =
            objNQChars (Obj.lit l) := by
          simp [objNQChars, litNQChars, hlang, hdtv]
        refine ⟨[], ?_⟩
        rw [hshape, hobj, pDtOpt_nocaret (by decide)]
        simp only [List.flatMap_cons, List.flatMap_nil, List.append_nil,
          pLangOpt_noat (c := ' ') (by decide), List.map_cons, List.map_nil]
        rw [hcap]

theorem pTail_nograph : pTail [' ', '.'] = some none := by decide

theorem pTail_graph {g : String} (h : wfIri g = true) :
    pTail (' ' :: '<' :: (g.data ++ '>' :: [' ', '.'])) =
      some (some ('<' :: g.data ++ ['>'])) := by
  have hne : g.data ≠ [] := by
    simp only [wfIri, Bool.and_eq_true] at h
    simpa using h.1
  have hgt : ∀ c ∈ g.data, ¬(c = '>') := fun c hc => by
    simp only [wfIri, Bool.and_eq_true, List.all_eq_true] at h
    have := h.2 c hc
    simp only [Bool.and_eq_true, Bool.not_eq_true', decide_eq_false_iff_not] at this
    exact this.1
  have hiri := pIri_exact (z := [' ', '.']) hne hgt
  unfold pTail
  rw [pWs0_space (l := '<' :: (g.data ++ '>' :: [' ', '.'])) (by intro c hc; cases hc; rfl)]
  apply findSome?_cons_some
  rw [pGraphOpt_iri hiri]
  apply findSome?_cons_some
  rw [pWs0_space (l := ['.']) (by intro c hc; cases hc; rfl)]
  apply findSome?_cons_some
  rfl

theorem objNQChars_head (o : Obj) :
    ∃ c cs, objNQChars o = c :: cs ∧ isJsWs c = false := by
  cases o with
  | node t =>
    cases t with
    | iri v => exact ⟨'<', _, rfl, by decide⟩
    | blank b => exact ⟨'_', _, rfl, by decide⟩
  | lit l => exact ⟨'"', _, rfl, by decide⟩

/-- The graph capture for a quad's graph component. -/
def graphCapChars : Option Term → Option (List Char)
  | some g => some (termNQChars g)
  | none => none

/-- The regex matches every well-formed serialized quad line, capturing the
four components in their bracketed textual forms. -/
theorem matchLine_quad {q : Quad} (h : wfQuad q = true) :
    matchLine (quadLineChars q) =
      some (⟨termNQChars q.subject⟩, ⟨'<' :: q.predicate.data ++ ['>']⟩,
        ⟨objNQChars q.object⟩, (graphCapChars q.graph).map fun gc => (⟨gc⟩ : String)) := by
  have hw : wfTerm q.subject = true ∧ wfIri q.predicate = true ∧ wfObj q.object = true := by
    simp only [wfQuad, Bool.and_eq_true] at h
    exact ⟨h.1.1.1, h.1.1.2, h.1.2⟩
  obtain ⟨oc, ocs, hoc, hocw⟩ := objNQChars_head q.object
  have hpne : q.predicate.data ≠ [] := by
    have := hw.2.1
    simp only [wfIri, Bool.and_eq_true] at this
    simpa using this.1
  have hpgt : ∀ c ∈ q.predicate.data, ¬(c = '>') := fun c hc => by
    have := hw.2.1
    simp only [wfIri, Bool.and_eq_true, List.all_eq_true] at this
    have h2 := this.2 c hc
    simp only [Bool.and_eq_true, Bool.not_eq_true', decide_eq_false_iff_not] at h2
    exact h2.1
  -- the tail after the object: `gpart ++ " ."`, always of the form ' ' :: _
  obtain ⟨tailr, htail, htailres⟩ :
      ∃ tailr, ((match q.graph with
        | some g => ' ' :: termNQChars g
        | none => []) ++ [' ', '.']) = ' ' :: tailr ∧
        pTail (' ' :: tailr) = some (graphCapChars q.graph) := by
    cases hg : q.graph with
    | none => exact ⟨['.'], rfl, pTail_nograph⟩
    | some g =>
      cases g with
      | iri v =>
        have hv : wfIri v = true := by
          simp only [wfQuad, hg, Bool.and_eq_true] at h
          exact h.2
        refine ⟨'<' :: (v.data ++ '>' :: [' ', '.']), ?_, ?_⟩
        · simp [termNQChars]
        · have := pTail_graph hv
          simpa [graphCapChars, termNQChars] using this
      | blank b =>
        exfalso
        simp [wfQuad, hg] at h
  -- normalize the line into the shape consumed by the subject step
  have hline : quadLineChars q =
      termNQChars q.subject ++ ' ' :: ('<' :: (q.predicate.data ++ '>' ::
        (' ' :: (objNQChars q.object ++ ' ' :: tailr)))) := by
    simp only [quadLineChars]
    rw [← htail]
    simp [List.append_assoc]
  obtain ⟨t1, hs⟩ := pSubject_parse
    (r := '<' :: (q.predicate.data ++ '>' :: (' ' :: (objNQChars q.object ++ ' ' :: tailr))))
    hw.1
  obtain ⟨t2, hob⟩ := pObject_parse (w := tailr) hw.2.2
  have hw1 : pWs1 (' ' :: ('<' :: (q.predicate.data ++ '>' ::
      (' ' :: (objNQChars q.object ++ ' ' :: tailr))))) =
      ['<' :: (q.predicate.data ++ '>' :: (' ' :: (objNQChars q.object ++ ' ' :: tailr)))] :=
    pWs1_space (by intro c hc; cases hc; rfl)
  have hw2 : pWs1 (' ' :: (objNQChars q.object ++ ' ' :: tailr)) =
      [objNQChars q.object ++ ' ' :: tailr] :=
    pWs1_space (by
      intro c hc
      rw [hoc] at hc
      cases hc
      exact hocw)
  unfold matchLine
  rw [hline, hs]
  apply findSome?_cons_some
  simp only [hw1, hw2, List.findSome?_cons, pIri_exact hpne hpgt, hob, htailres]

/-- Cleaning the captures of a well-formed line yields exactly the
interpretation `quadToTriple` of the quad. -/
theorem lineTriple_caps {q : Quad} (h : wfQuad q = true) :
    lineTriple (⟨termNQChars q.subject⟩, ⟨'<' :: q.predicate.data ++ ['>']⟩,
      ⟨objNQChars q.object⟩, (graphCapChars q.graph).map fun gc => (⟨gc⟩ : String)) =
      quadToTriple q := by
  have hsub : cleanTerm ⟨termNQChars q.subject⟩ = termText q.subject := by
    cases q.subject with
    | iri v => exact cleanTerm_brackets v
    | blank b =>
      rw [cleanTerm_nonlt (by simp [termNQChars])]
      show String.mk ('_' :: ':' :: b.data) = "_:" ++ b
      have : ("_:" ++ b).data = '_' :: ':' :: b.data := by
        simp
      exact String.ext this.symm
  have hpred : cleanTerm ⟨'<' :: q.predicate.data ++ ['>']⟩ = q.predicate :=
    cleanTerm_brackets q.predicate
  have hobjc : cleanTerm ⟨objNQChars q.object⟩ = objText q.object := by
    cases q.object with
    | node t =>
      cases t with
      | iri v => exact cleanTerm_brackets v
      | blank b =>
        rw [show objNQChars (Obj.node (Term.blank b)) = termNQChars (Term.blank b) from rfl]
        rw [cleanTerm_nonlt (by simp [termNQChars])]
        show String.mk ('_' :: ':' :: b.data) = "_:" ++ b
        have : ("_:" ++ b).data = '_' :: ':' :: b.data := by simp
        exact String.ext this.symm
    | lit l =>
      rw [cleanTerm_nonlt (by simp [objNQChars, litNQChars])]
      rfl
  have hgr :
      (match ((graphCapChars q.graph).map fun gc => (⟨gc⟩ : String)) with
        | some g => cleanTerm g
        | none => "default") =
      (match q.graph with
        | some g => termText g
        | none => "default") := by
    cases hg : q.graph with
    | none => rfl
    | some g =>
      cases g with
      | iri v =>
        simp only [graphCapChars, Option.map_some, termNQChars]
        exact cleanTerm_brackets v
      | blank b =>
        exfalso
        simp [wfQuad, hg] at h
  simp only [lineTriple, quadToTriple]
  rw [hsub, hpred, hobjc]
  exact congrArg _ hgr

/-! ### Assembling the full round trip -/

theorem nlf_append {a b : List Char} (ha : ∀ c ∈ a, c ≠ '\n') (hb : ∀ c ∈ b, c ≠ '\n') :
    ∀ c ∈ a ++ b, c ≠ '\n' :=
  fun c hc => (List.mem_append.mp hc).elim (ha c) (hb c)

theorem nlf_cons {x : Char} {t : List Char} (hx : x ≠ '\n') (ht : ∀ c ∈ t, c ≠ '\n') :
    ∀ c ∈ x :: t, c ≠ '\n' :=
  fun c hc => (List.mem_cons.mp hc).elim (fun h => h ▸ hx) (ht c)

theorem nlf_nil : ∀ c ∈ ([] : List Char), c ≠ '\n' := by simp

theorem nlf_term {t : Term} (h : wfTerm t = true) : ∀ c ∈ termNQChars t, c ≠ '\n' := by
  cases t with
  | iri v =>
    simp only [wfTerm, wfIri, Bool.and_eq_true, List.all_eq_true] at h
    have hv : ∀ c ∈ v.data, c ≠ '\n' := fun c hc => by
      have := h.2 c hc
      simp only [Bool.and_eq_true, Bool.not_eq_true', decide_eq_false_iff_not] at this
      exact this.2
    exact nlf_cons (by decide) (nlf_append hv (nlf_cons (by decide) nlf_nil))
  | blank b =>
    simp only [wfTerm, wfBlankLabel, Bool.and_eq_true, List.all_eq_true] at h
    have hv : ∀ c ∈ b.data, c ≠ '\n' := fun c hc => by
      have := h.2 c hc
      simp only [Bool.not_eq_true'] at this
      intro hcn
      rw [hcn] at this
      exact absurd this (by decide)
    exact nlf_cons (by decide) (nlf_cons (by decide) hv)

theorem nlf_obj {o : Obj} (h : wfObj o = true) : ∀ c ∈ objNQChars o, c ≠ '\n' := by
  cases o with
  | node t => exact nlf_term h
  | lit l =>
    have hval : ∀ c ∈ l.value.data, ¬(c = '"') := by
      simp only [wfObj, wfLit, Bool.and_eq_true, List.all_eq_true] at h
      intro c hc
      simpa using h.1 c hc
    have hesc : ∀ c ∈ escapeChars l.value.data, c ≠ '\n' :=
      fun c hc => (escapeChars_safe hval c hc).2
    have hsfx : ∀ c ∈ (match l.lang with
        | some t => '@' :: (lowerTag t).data
        | none =>
          match l.datatype with
          | some d => if d = xsdString then [] else '^' :: '^' :: '<' :: d.data ++ ['>']
          | none => []), c ≠ '\n' := by
      cases hlang : l.lang with
      | some tg =>
        have htag : ∀ c ∈ tg.data, isTagChar c = true := by
          simp only [wfObj, wfLit, hlang, Bool.and_eq_true, List.all_eq_true] at h
          exact h.2.2
        dsimp only
        rw [lowerTag_fixed htag]
        refine nlf_cons (by decide) fun c hc => ?_
        have := htag c hc
        intro hcn
        rw [hcn] at this
        exact absurd this (by decide)
      | none =>
        cases hdtv : l.datatype with
        | some d =>
          dsimp only
          by_cases hxs : d = xsdString
          · rw [if_pos hxs]
            exact nlf_nil
          · rw [if_neg hxs]
            have hdw : wfIri d = true := by
              simp only [wfObj, wfLit, hlang, hdtv, Bool.and_eq_true] at h
              exact h.2
            simp only [wfIri, Bool.and_eq_true, List.all_eq_true] at hdw
            have hd : ∀ c ∈ d.data, c ≠ '\n' := fun c hc => by
              have := hdw.2 c hc
              simp only [Bool.and_eq_true, Bool.not_eq_true', decide_eq_false_iff_not] at this
              exact this.2
            exact nlf_cons (by decide) (nlf_cons (by decide) (nlf_cons (by decide)
              (nlf_append hd (nlf_cons (by decide) nlf_nil))))
        | none =>
          dsimp only
          exact nlf_nil
    simp only [objNQChars, litNQChars]
    exact nlf_cons (by decide)
      (nlf_append (nlf_append hesc (nlf_cons (by decide) nlf_nil)) hsfx)

theorem nlf_quadLine {q : Quad} (h : wfQuad q = true) : ∀ c ∈ quadLineChars q, c ≠ '\n' := by
  have hw : wfTerm q.subject = true ∧ wfIri q.predicate = true ∧ wfObj q.object = true := by
    simp only [wfQuad, Bool.and_eq_true] at h
    exact ⟨h.1.1.1, h.1.1.2, h.1.2⟩
  have hpred : ∀ c ∈ q.predicate.data, c ≠ '\n' := fun c hc => by
    have := hw.2.1
    simp only [wfIri, Bool.and_eq_true, List.all_eq_true] at this
    have h2 := this.2 c hc
    simp only [Bool.and_eq_true, Bool.not_eq_true', decide_eq_false_iff_not] at h2
    exact h2.2
  have hgr : ∀ c ∈ (match q.graph with
      | some g => ' ' :: termNQChars g
      | none => ([] : List Char)), c ≠ '\n' := by
    cases hg : q.graph with
    | none => exact nlf_nil
    | some g =>
      have hgw : wfTerm g = true := by
        cases g with
        | iri v =>
          simp only [wfQuad, hg, Bool.and_eq_true] at h
          simpa [wfTerm] using h.2
        | blank b =>
          exfalso
          simp [wfQuad, hg] at h
      exact nlf_cons (by decide) (nlf_term hgw)
  simp only [quadLineChars]
  exact nlf_append (nlf_append (nlf_append (nlf_append (nlf_append (nlf_append
    (nlf_term hw.1)
    (nlf_cons (by decide) nlf_nil))
    (nlf_cons (by decide) (nlf_append hpred (nlf_cons (by decide) nlf_nil))))
    (nlf_cons (by decide) nlf_nil))
    (nlf_obj hw.2.2))
    hgr)
    (nlf_cons (by decide) (nlf_cons (by decide) nlf_nil))

theorem splitLines_line {l r : List Char} (h : ∀ c ∈ l, c ≠ '\n') :
    splitLines (l ++ '\n' :: r) = l :: splitLines r := by
  induction l with
  | nil => simp [splitLines]
  | cons x t ih =>
    have hx : ¬(x = '\n') := h x (by simp)
    have ih' := ih (fun c hc => h c (by simp [hc]))
    simp only [List.cons_append, splitLines, if_neg hx, List.append_eq, ih']

theorem splitLines_flatten {L : List (List Char)} (h : ∀ l ∈ L, ∀ c ∈ l, c ≠ '\n') :
    splitLines ((L.map (fun l => l ++ ['\n'])).flatten) = L ++ [[]] := by
  induction L with
  | nil => rfl
  | cons l ls ih =>
    simp only [List.map_cons, List.flatten_cons]
    have hsh : (l ++ ['\n']) ++ (ls.map (fun l => l ++ ['\n'])).flatten =
        l ++ '\n' :: (ls.map (fun l => l ++ ['\n'])).flatten := by
      simp
    rw [hsh, splitLines_line (h l (by simp)), ih (fun l' hl' => h l' (by simp [hl']))]
    rfl

theorem hasContent_quadLine (q : Quad) : hasContent (quadLineChars q) = true := by
  simp only [hasContent, List.any_eq_true]
  refine ⟨'.', ?_, by decide⟩
  simp [quadLineChars]

theorem filterMap_lines (Q : List Quad) (h : ∀ q ∈ Q, wfQuad q = true) :
    (Q.map quadLineChars).filterMap (fun line => (matchLine line).map lineTriple) =
      Q.map quadToTriple := by
  induction Q with
  | nil => rfl
  | cons q t ih =>
    have hq := h q (by simp)
    simp only [List.map_cons, List.filterMap_cons, matchLine_quad hq, Option.map_some']
    rw [lineTriple_caps hq, ih (fun q' hq' => h q' (by simp [hq']))]

/-- Round trip over well-formed quads: every line `toNQuads` produces
from a well-formed quad is re-parsed by `parseNQuads` into the
corresponding triple — no quad is lost and no component altered. -/
theorem parseNQuads_toNQuads_wf (Q : List Quad) (h : ∀ q ∈ Q, wfQuad q = true) :
    parseNQuads (toNQuads Q) = Q.map quadToTriple := by
  unfold parseNQuads toNQuads
  show ((splitLines (toNQuadsChars Q)).filter hasContent).filterMap _ = _
  unfold toNQuadsChars
  have hL : (Q.map fun q => quadLineChars q ++ ['\n']) =
      (Q.map quadLineChars).map (fun l => l ++ ['\n']) := by
    rw [List.map_map]
    rfl
  have hfree : ∀ l ∈ Q.map quadLineChars, ∀ c ∈ l, c ≠ '\n' := by
    intro l hl
    obtain ⟨q, hq, rfl⟩ := List.mem_map.mp hl
    exact nlf_quadLine (h q hq)
  rw [hL, splitLines_flatten hfree, List.filter_append]
  have h1 : (Q.map quadLineChars).filter hasContent = Q.map quadLineChars := by
    apply List.filter_eq_self.mpr
    intro l hl
    obtain ⟨q, hq, rfl⟩ := List.mem_map.mp hl
    exact hasContent_quadLine q
  have h2 : ([[]] : List (List Char)).filter hasContent = [] := rfl
  rw [h1, h2, List.append_nil]
  exact filterMap_lines Q h

/-! ## Canonicalization (URDNA2015-style)

Modelled from the spec: the repository's `canonize` calls
`jsonld.canonize(doc, {algorithm: 'URDNA2015', format: 'application/n-quads',
safe: false})` of the external `jsonld.js` library, which is not part of the
repository.  The spec requires a "deterministic N-Quads serialization where
blank-node labels are reassigned ... so that isomorphic graphs canonicalize
identically", with remaining ties broken "by lexicographic quad ordering".
The model below realizes exactly that canonical form: blank nodes are
assigned canonical labels by the relabeling whose sorted N-Quads
serialization is lexicographically least over all relabelings — the
defining (extensional) property of URDNA2015's canonical labeling. -/

/-- The blank-node labels occurring in a subject/graph term. -/
def termBlanks : Term → List String
  | .blank b => [b]
  | .iri _ => []

/-- The blank-node labels occurring in an object term. -/
def objBlanks : Obj → List String
  | .node t => termBlanks t
  | .lit _ => []

/-- The blank-node labels occurring in a quad. -/
def quadBlanks (q : Quad) : List String :=
  termBlanks q.subject ++ objBlanks q.object ++
    (match q.graph with
     | some t => termBlanks t
     | none => [])

/-- All blank-node labels occurring in a quad list (with repetitions). -/
def blankList : List Quad → List String
  | [] => []
  | q :: t => quadBlanks q ++ blankList t

/-- The distinct blank-node labels of a quad list, sorted. -/
def blanksSorted (Q : List Quad) : List String :=
  List.insertionSort (· ≤ ·) (blankList Q).dedup

/-- The `k`-th canonical blank-node label. -/
def canonName (k : Nat) : String := "c" ++ String.mk (List.replicate k 'n')

/-- Index of the first occurrence of a label in a list. -/
def idxOf? : List String → String → Option Nat
  | [], _ => none
  | x :: t, b => if x = b then some 0 else (idxOf? t b).map (· + 1)

/-- The relabeling function induced by the blank list `B` and the
permutation `p` of `List.range B.length`: the blank at index `i` of `B`
receives the canonical name numbered `p[i]`. -/
def assignFn (B : List String) (p : List Nat) (b : String) : String :=
  match idxOf? B b with
  | some i => canonName (p.getD i 0)
  | none => b

/-- Apply a blank-node relabeling to a term. -/
def renameTerm (f : String → String) : Term → Term
  | .iri s => .iri s
  | .blank b => .blank (f b)

/-- Apply a blank-node relabeling to an object. -/
def renameObj (f : String → String) : Obj → Obj
  | .node t => .node (renameTerm f t)
  | .lit l => .lit l

/-- Apply a blank-node relabeling to a quad. -/
def renameQuad (f : String → String) (q : Quad) : Quad :=
  { subject := renameTerm f q.subject
    predicate := q.predicate
    object := renameObj f q.object
    graph := q.graph.map (renameTerm f) }

/-- The deterministic serialization of a candidate: one N-Quads line per
quad, lines sorted lexicographically. -/
def render (Q : List Quad) : String :=
  String.join (List.insertionSort (· ≤ ·) (Q.map fun q => (⟨quadLineChars q⟩ : String) ++ "\n"))

/-- All candidate serializations: one per assignment of the canonical
labels to the blank nodes. -/
def candidates (Q : List Quad) : List String :=
  ((List.range (blanksSorted Q).length).permutations).map fun p =>
    render (Q.map (renameQuad (assignFn (blanksSorted Q) p)))

/-- The least element of a list of strings (lexicographic order). -/
def minStr : List String → Option String
  | [] => none
  | x :: t =>
    match minStr t with
    | none => some x
    | some m => some (if x ≤ m then x else m)

/-- The canonical N-Quads serialization: the lexicographically least
candidate. -/
def canonize (Q : List Quad) : String := (minStr (candidates Q)).getD ""

/-- The permutation realizing the canonical serialization. -/
def canonPerm (Q : List Quad) : List Nat :=
  (((List.range (blanksSorted Q).length).permutations).find? fun p =>
    render (Q.map (renameQuad (assignFn (blanksSorted Q) p))) = canonize Q).getD
    (List.range (blanksSorted Q).length)

/-- The canonically relabeled quads (the quads of the canonical output). -/
def canonQuads (Q : List Quad) : List Quad :=
  Q.map (renameQuad (assignFn (blanksSorted Q) (canonPerm Q)))

/-! ### Rename lemmas -/

theorem renameTerm_comp (f g : String → String) (t : Term) :
    renameTerm f (renameTerm g t) = renameTerm (fun b => f (g b)) t := by
  cases t <;> rfl

theorem renameQuad_comp (f g : String → String) (q : Quad) :
    renameQuad f (renameQuad g q) = renameQuad (fun b => f (g b)) q := by
  simp only [renameQuad, Quad.mk.injEq]
  refine ⟨renameTerm_comp f g _, trivial, ?_, ?_⟩
  · cases q.object with
    | node t => exact congrArg Obj.node (renameTerm_comp f g t)
    | lit l => rfl
  · cases q.graph with
    | none => rfl
    | some t => exact congrArg some (renameTerm_comp f g t)

theorem renameQuad_congr {f g : String → String} {q : Quad}
    (h : ∀ b ∈ quadBlanks q, f b = g b) : renameQuad f q = renameQuad g q := by
  simp only [renameQuad, Quad.mk.injEq]
  refine ⟨?_, trivial, ?_, ?_⟩
  · cases hs : q.subject with
    | iri v => rfl
    | blank b =>
      have : f b = g b := h b (by simp [quadBlanks, hs, termBlanks])
      simp [renameTerm, this]
  · cases ho : q.object with
    | lit l => rfl
    | node t =>
      cases t with
      | iri v => rfl
      | blank b =>
        have : f b = g b := h b (by simp [quadBlanks, ho, objBlanks, termBlanks])
        simp [renameObj, renameTerm, this]
  · cases hg : q.graph with
    | none => rfl
    | some t =>
      cases t with
      | iri v => rfl
      | blank b =>
        have : f b = g b := h b (by simp [quadBlanks, hg, termBlanks])
        simp [renameTerm, this]

theorem renameQuad_id {f : String → String} {q : Quad}
    (h : ∀ b ∈ quadBlanks q, f b = b) : renameQuad f q = q := by
  have := renameQuad_congr (g := fun b => b) h
  rw [this]
  simp only [renameQuad]
  cases q with
  | mk s p o g =>
    simp only [Quad.mk.injEq]
    refine ⟨by cases s <;> rfl, trivial, ?_, ?_⟩
    · cases o with
      | node t => cases t <;> rfl
      | lit l => rfl
    · cases g with
      | none => rfl
      | some t => cases t <;> rfl

/-! ### Blank-list lemmas -/

theorem termBlanks_rename (f : String → String) (t : Term) :
    termBlanks (renameTerm f t) = (termBlanks t).map f := by
  cases t <;> rfl

theorem quadBlanks_rename (f : String → String) (q : Quad) :
    quadBlanks (renameQuad f q) = (quadBlanks q).map f := by
  simp only [quadBlanks, renameQuad, List.map_append]
  congr 1
  · congr 1
    · exact termBlanks_rename f _
    · cases q.object with
      | node t => exact termBlanks_rename f t
      | lit l => rfl
  · cases q.graph with
    | none => rfl
    | some t =>
      simp only [Option.map_some]
      exact termBlanks_rename f t

theorem blankList_rename (f : String → String) (Q : List Quad) :
    blankList (Q.map (renameQuad f)) = (blankList Q).map f := by
  induction Q with
  | nil => rfl
  | cons q t ih =>
    simp only [List.map_cons, blankList, quadBlanks_rename, ih, List.map_append]

theorem blankList_perm {Q Q' : List Quad} (h : List.Perm Q Q') :
    List.Perm (blankList Q) (blankList Q') := by
  induction h with
  | nil => exact List.Perm.refl _
  | cons x _ ih => exact ih.append_left (quadBlanks x)
  | swap x y l =>
    show List.Perm (quadBlanks y ++ (quadBlanks x ++ blankList l))
      (quadBlanks x ++ (quadBlanks y ++ blankList l))
    rw [← List.append_assoc, ← List.append_assoc]
    exact (List.perm_append_comm).append_right (blankList l)
  | trans _ _ ih1 ih2 => exact ih1.trans ih2

theorem mem_blankList_iff {b : String} {Q : List Quad} :
    b ∈ blankList Q ↔ ∃ q ∈ Q, b ∈ quadBlanks q := by
  induction Q with
  | nil => simp [blankList]
  | cons q t ih => simp [blankList, ih]

theorem mem_blanksSorted {b : String} {Q : List Quad} :
    b ∈ blanksSorted Q ↔ b ∈ blankList Q := by
  unfold blanksSorted
  rw [(List.perm_insertionSort _ _).mem_iff, List.mem_dedup]

theorem blanksSorted_nodup (Q : List Quad) : (blanksSorted Q).Nodup :=
  ((List.perm_insertionSort _ _).nodup_iff).mpr (List.nodup_dedup _)

theorem blanksSorted_sorted (Q : List Quad) :
    List.Sorted (· ≤ ·) (blanksSorted Q) :=
  List.sorted_insertionSort _ _

theorem blanksSorted_congr {Q Q' : List Quad}
    (h : ∀ b, b ∈ blankList Q ↔ b ∈ blankList Q') :
    blanksSorted Q = blanksSorted Q' := by
  apply List.eq_of_perm_of_sorted ?_ (blanksSorted_sorted Q) (blanksSorted_sorted Q')
  refine (List.perm_ext_iff_of_nodup (blanksSorted_nodup Q) (blanksSorted_nodup Q')).mpr ?_
  intro b
  rw [mem_blanksSorted, mem_blanksSorted]
  exact h b

/-! ### Index and label lemmas -/

theorem idxOf?_spec {B : List String} {b : String} {i : Nat}
    (h : idxOf? B b = some i) : i < B.length ∧ B.getD i "" = b := by
  induction B generalizing i with
  | nil => simp [idxOf?] at h
  | cons x t ih =>
    by_cases hx : x = b
    · simp only [idxOf?, if_pos hx, Option.some.injEq] at h
      subst h
      exact ⟨by simp, hx⟩
    · simp only [idxOf?, if_neg hx] at h
      cases hi : idxOf? t b with
      | none => rw [hi] at h; simp at h
      | some j =>
        rw [hi] at h
        simp only [Option.map_some', Option.some.injEq] at h
        subst h
        obtain ⟨h1, h2⟩ := ih hi
        constructor
        · simpa using Nat.succ_lt_succ h1
        · simpa using h2

theorem idxOf?_isSome {B : List String} {b : String} (h : b ∈ B) :
    (idxOf? B b).isSome = true := by
  induction B with
  | nil => simp at h
  | cons x t ih =>
    by_cases hx : x = b
    · simp [idxOf?, hx]
    · have : b ∈ t := by
        rcases List.mem_cons.mp h with h1 | h1
        · exact absurd h1.symm hx
        · exact h1
      simp [idxOf?, hx, ih this]

theorem idxOf?_getD {B : List String} {i : Nat} (hnd : B.Nodup) (hi : i < B.length) :
    idxOf? B (B.getD i "") = some i := by
  induction B generalizing i with
  | nil => simp at hi
  | cons x t ih =>
    cases i with
    | zero => simp [idxOf?]
    | succ j =>
      have hj : j < t.length := by simpa using hi
      have hget : (x :: t).getD (j + 1) "" = t.getD j "" := by simp
      have hne : ¬(x = t.getD j "") := by
        intro hcon
        have : t.getD j "" ∈ t := by
          rw [List.getD_eq_getElem?_getD, List.getElem?_eq_getElem hj]
          simp
        rw [← hcon] at this
        exact (List.nodup_cons.mp hnd).1 this
      rw [hget]
      simp only [idxOf?, if_neg hne, ih (List.nodup_cons.mp hnd).2 hj]
      rfl

theorem canonName_inj {a b : Nat} (h : canonName a = canonName b) : a = b := by
  have hd : (canonName a).data = (canonName b).data := by rw [h]
  simp only [canonName] at hd
  have : ('c' :: List.replicate a 'n') = ('c' :: List.replicate b 'n') := by
    simpa using hd
  have hrep : List.replicate a 'n' = List.replicate b 'n' := by
    injection this
  have := congrArg List.length hrep
  simpa using this

theorem getD_map_lt {B : List String} {g : String → Nat} {i : Nat} (hi : i < B.length) :
    (B.map g).getD i 0 = g (B.getD i "") := by
  induction B generalizing i with
  | nil => simp at hi
  | cons x t ih =>
    cases i with
    | zero => simp
    | succ j =>
      have hj : j < t.length := by simpa using hi
      simpa using ih hj

theorem nodup_getD_inj {p : List Nat} (hnd : p.Nodup) {i j : Nat}
    (hi : i < p.length) (hj : j < p.length) (h : p.getD i 0 = p.getD j 0) : i = j := by
  rw [List.getD_eq_getElem?_getD, List.getElem?_eq_getElem hi] at h
  rw [List.getD_eq_getElem?_getD, List.getElem?_eq_getElem hj] at h
  simp only [Option.getD_some] at h
  exact (List.Nodup.getElem_inj_iff hnd).mp h

/-! ### Render and minimum lemmas -/

theorem render_perm {Q Q' : List Quad} (h : List.Perm Q Q') : render Q = render Q' := by
  unfold render
  congr 1
  apply List.eq_of_perm_of_sorted
    (((List.perm_insertionSort _ _).trans (h.map _)).trans
      (List.perm_insertionSort _ _).symm)
    (List.sorted_insertionSort _ _) (List.sorted_insertionSort _ _)

theorem minStr_eq_none {l : List String} : minStr l = none ↔ l = [] := by
  cases l with
  | nil => simp [minStr]
  | cons x t =>
    simp only [minStr]
    cases minStr t <;> simp

theorem minStr_mem {l : List String} {m : String} (h : minStr l = some m) : m ∈ l := by
  induction l generalizing m with
  | nil => simp [minStr] at h
  | cons x t ih =>
    simp only [minStr] at h
    cases ht : minStr t with
    | none =>
      rw [ht] at h
      simp only [Option.some.injEq] at h
      simp [← h]
    | some m' =>
      rw [ht] at h
      simp only [Option.some.injEq] at h
      by_cases hle : x ≤ m'
      · rw [if_pos hle] at h
        simp [← h]
      · rw [if_neg hle] at h
        subst h
        exact List.mem_cons_of_mem x (ih ht)

theorem minStr_le_all {l : List String} {m : String} (h : minStr l = some m) :
    ∀ a ∈ l, m ≤ a := by
  induction l generalizing m with
  | nil => simp [minStr] at h
  | cons x t ih =>
    intro a ha
    simp only [minStr] at h
    cases ht : minStr t with
    | none =>
      rw [ht] at h
      simp only [Option.some.injEq] at h
      have hte : t = [] := minStr_eq_none.mp ht
      subst hte
      rcases List.mem_cons.mp ha with h1 | h1
      · exact le_of_eq (h.symm.trans h1.symm)
      · simp at h1
    | some m' =>
      rw [ht] at h
      simp only [Option.some.injEq] at h
      by_cases hle : x ≤ m'
      · rw [if_pos hle] at h
        rcases List.mem_cons.mp ha with h1 | h1
        · exact le_of_eq (h.symm.trans h1.symm)
        · exact h ▸ (le_trans hle (ih ht a h1))
      · rw [if_neg hle] at h
        have h2 : m' ≤ x := (le_total x m').resolve_left hle
        rcases List.mem_cons.mp ha with h1 | h1
        · exact le_of_le_of_eq (h ▸ h2) h1.symm
        · exact h ▸ ih ht a h1

theorem minStr_congr {A B : List String} (h : ∀ s, s ∈ A ↔ s ∈ B) :
    minStr A = minStr B := by
  cases hA : minStr A with
  | none =>
    cases hB : minStr B with
    | none => rfl
    | some b =>
      have := (h b).mpr (minStr_mem hB)
      rw [minStr_eq_none.mp hA] at this
      simp at this
  | some a =>
    cases hB : minStr B with
    | none =>
      have := (h a).mp (minStr_mem hA)
      rw [minStr_eq_none.mp hB] at this
      simp at this
    | some b =>
      have hab : a ≤ b := minStr_le_all hA b ((h b).mpr (minStr_mem hB))
      have hba : b ≤ a := minStr_le_all hB a ((h a).mp (minStr_mem hA))
      rw [le_antisymm hab hba]

theorem candidates_ne_nil (Q : List Quad) : candidates Q ≠ [] := by
  unfold candidates
  intro hcon
  have hmem : (List.range (blanksSorted Q).length) ∈
      (List.range (blanksSorted Q).length).permutations :=
    List.mem_permutations.mpr (List.Perm.refl _)
  rw [List.map_eq_nil_iff] at hcon
  rw [hcon] at hmem
  simp at hmem

theorem canonize_mem (Q : List Quad) : canonize Q ∈ candidates Q := by
  cases hmin : minStr (candidates Q) with
  | none =>
    exact absurd (minStr_eq_none.mp hmin) (candidates_ne_nil Q)
  | some m =>
    have hm : m ∈ candidates Q := minStr_mem hmin
    have hval : canonize Q = m := by
      unfold canonize
      rw [hmin]
      rfl
    rw [hval]
    exact hm

theorem canonPerm_perm (Q : List Quad) :
    List.Perm (canonPerm Q) (List.range (blanksSorted Q).length) := by
  unfold canonPerm
  cases hf : ((List.range (blanksSorted Q).length).permutations).find? fun p =>
      render (Q.map (renameQuad (assignFn (blanksSorted Q) p))) = canonize Q with
  | none =>
    simp only [Option.getD_none]
    exact List.Perm.refl _
  | some pf =>
    simp only [Option.getD_some]
    exact List.mem_permutations.mp (List.mem_of_find?_eq_some hf)

theorem render_canonQuads (Q : List Quad) : render (canonQuads Q) = canonize Q := by
  have hm := canonize_mem Q
  unfold candidates at hm
  obtain ⟨p0, hp0, hr⟩ := List.mem_map.mp hm
  have hfind : (((List.range (blanksSorted Q).length).permutations).find? fun p =>
      render (Q.map (renameQuad (assignFn (blanksSorted Q) p))) = canonize Q).isSome = true := by
    rw [List.find?_isSome]
    exact ⟨p0, hp0, by simp [hr]⟩
  obtain ⟨pf, hpf⟩ := Option.isSome_iff_exists.mp hfind
  have hprop := List.find?_some hpf
  unfold canonQuads canonPerm
  rw [hpf]
  simp only [Option.getD_some]
  simpa using hprop

/-! ### The isomorphism-invariance of the canonical form -/

theorem mem_candidates_transfer {Q Q' : List Quad} {π : String → String}
    (hinj : ∀ b1 ∈ blanksSorted Q, ∀ b2 ∈ blanksSorted Q, π b1 = π b2 → b1 = b2)
    (hperm : List.Perm Q' (Q.map (renameQuad π))) :
    ∀ s ∈ candidates Q', s ∈ candidates Q := by
  intro s hs
  unfold candidates at hs
  obtain ⟨p', hp'mem, rfl⟩ := List.mem_map.mp hs
  have hp'0 : List.Perm p' (List.range (blanksSorted Q').length) :=
    List.mem_permutations.mp hp'mem
  -- the blank lists of `Q'` and of the renamed `Q`
  have hBL : blankList (Q.map (renameQuad π)) = (blankList Q).map π := blankList_rename π Q
  have hB'eq : blanksSorted Q' = blanksSorted (Q.map (renameQuad π)) :=
    blanksSorted_congr (fun b => (blankList_perm hperm).mem_iff)
  have hB'mem : ∀ b', b' ∈ blanksSorted Q' ↔ ∃ b ∈ blanksSorted Q, π b = b' := by
    intro b'
    rw [hB'eq, mem_blanksSorted, hBL, List.mem_map]
    constructor
    · rintro ⟨b, hb, rfl⟩
      exact ⟨b, mem_blanksSorted.mpr hb, rfl⟩
    · rintro ⟨b, hb, rfl⟩
      exact ⟨b, mem_blanksSorted.mp hb, rfl⟩
  have hmapnd : ((blanksSorted Q).map π).Nodup :=
    (blanksSorted_nodup Q).map_on hinj
  have hB'perm : List.Perm (blanksSorted Q') ((blanksSorted Q).map π) := by
    refine (List.perm_ext_iff_of_nodup (blanksSorted_nodup Q') hmapnd).mpr ?_
    intro b'
    rw [hB'mem b', List.mem_map]
  have hlen : (blanksSorted Q').length = (blanksSorted Q).length := by
    rw [hB'perm.length_eq, List.length_map]
  have hp' : List.Perm p' (List.range (blanksSorted Q).length) := hlen ▸ hp'0
  have hp'nodup : p'.Nodup := hp'.nodup_iff.mpr (List.nodup_range _)
  have hp'len : p'.length = (blanksSorted Q).length :=
    hp'.length_eq.trans (List.length_range _)
  -- the permutation over `blanksSorted Q` realizing the same assignment
  set B := blanksSorted Q with hB
  set B' := blanksSorted Q' with hB'
  set g : String → Nat := fun b => p'.getD ((idxOf? B' (π b)).getD 0) 0 with hg
  set p'' : List Nat := B.map g with hp''def
  -- the index of `π b` in `B'` is well defined for `b ∈ B`
  have hidx : ∀ b ∈ B, ∃ j, idxOf? B' (π b) = some j ∧ j < B'.length ∧ B'.getD j "" = π b := by
    intro b hb
    have hπb : π b ∈ B' := (hB'mem (π b)).mpr ⟨b, hb, rfl⟩
    obtain ⟨j, hj⟩ := Option.isSome_iff_exists.mp (idxOf?_isSome hπb)
    obtain ⟨hj1, hj2⟩ := idxOf?_spec hj
    exact ⟨j, hj, hj1, hj2⟩
  -- agreement of the two assignments on the blanks of `Q`
  have hagree : ∀ b ∈ B, assignFn B' p' (π b) = assignFn B p'' b := by
    intro b hb
    obtain ⟨j, hj, hjlt, hjval⟩ := hidx b hb
    obtain ⟨i, hi⟩ := Option.isSome_iff_exists.mp (idxOf?_isSome hb)
    obtain ⟨hilt, hival⟩ := idxOf?_spec hi
    have hleft : assignFn B' p' (π b) = canonName (p'.getD j 0) := by
      simp [assignFn, hj]
    have hgb : g b = p'.getD j 0 := by
      simp [hg, hj]
    have hright : assignFn B p'' b = canonName (p''.getD i 0) := by
      simp [assignFn, hi]
    have hmapi : p''.getD i 0 = g (B.getD i "") := getD_map_lt hilt
    rw [hleft, hright, hmapi, hival, hgb]
  -- p'' is a permutation of the canonical index range
  have hp''nodup : p''.Nodup := by
    refine (blanksSorted_nodup Q).map_on ?_
    intro b1 hb1 b2 hb2 heq
    obtain ⟨j1, hj1, hj1lt, hj1val⟩ := hidx b1 hb1
    obtain ⟨j2, hj2, hj2lt, hj2val⟩ := hidx b2 hb2
    have he1 : g b1 = p'.getD j1 0 := by simp [hg, hj1]
    have he2 : g b2 = p'.getD j2 0 := by simp [hg, hj2]
    rw [he1, he2] at heq
    have hjj : j1 = j2 :=
      nodup_getD_inj hp'nodup (hp'len ▸ hlen ▸ hj1lt) (hp'len ▸ hlen ▸ hj2lt) heq
    rw [hjj] at hj1val
    have : π b1 = π b2 := hj2val ▸ hj1val.symm
    exact hinj b1 hb1 b2 hb2 this
  have hp''mem : ∀ x, x ∈ p'' ↔ x ∈ List.range B.length := by
    intro x
    constructor
    · intro hx
      obtain ⟨b, hb, rfl⟩ := List.mem_map.mp hx
      obtain ⟨j, hj, hjlt, _⟩ := hidx b hb
      have he : g b = p'.getD j 0 := by simp [hg, hj]
      have hjlt' : j < p'.length := by
        rw [hp'len]
        rw [hlen] at hjlt
        exact hjlt
      have : p'.getD j 0 ∈ p' := by
        rw [List.getD_eq_getElem?_getD, List.getElem?_eq_getElem hjlt']
        simp
      rw [he]
      exact hp'.mem_iff.mp this
    · intro hx
      have hxp' : x ∈ p' := hp'.mem_iff.mpr hx
      obtain ⟨j, hjlt, hjval⟩ := List.getElem_of_mem hxp'
      have hjltB' : j < B'.length := by
        rw [hlen, ← hp'len]
        exact hjlt
      have hbj : B'.getD j "" ∈ B' := by
        rw [List.getD_eq_getElem?_getD, List.getElem?_eq_getElem hjltB']
        simp
      obtain ⟨b, hb, hπ⟩ := (hB'mem (B'.getD j "")).mp hbj
      have hidxj : idxOf? B' (π b) = some j := by
        rw [hπ]
        exact idxOf?_getD (blanksSorted_nodup Q') hjltB'
      have : g b = x := by
        simp only [hg, hidxj, Option.getD_some]
        rw [List.getD_eq_getElem?_getD, List.getElem?_eq_getElem hjlt]
        simpa using hjval
      exact List.mem_map.mpr ⟨b, hb, this⟩
  have hp''perm : List.Perm p'' (List.range B.length) := by
    refine (List.perm_ext_iff_of_nodup hp''nodup (List.nodup_range _)).mpr hp''mem
  -- transport the candidate
  have hr1 : List.Perm (Q'.map (renameQuad (assignFn B' p')))
      ((Q.map (renameQuad π)).map (renameQuad (assignFn B' p'))) := hperm.map _
  have hr2 : (Q.map (renameQuad π)).map (renameQuad (assignFn B' p')) =
      Q.map (renameQuad (assignFn B p'')) := by
    rw [List.map_map]
    apply List.map_congr_left
    intro q hq
    show renameQuad (assignFn B' p') (renameQuad π q) = renameQuad (assignFn B p'') q
    rw [renameQuad_comp]
    apply renameQuad_congr
    intro b hbq
    apply hagree
    rw [hB, mem_blanksSorted, mem_blankList_iff]
    exact ⟨q, hq, hbq⟩
  unfold candidates
  refine List.mem_map.mpr ⟨p'', List.mem_permutations.mpr hp''perm, ?_⟩
  rw [render_perm hr1, hr2]

/-- Canonicalization is invariant under blank-node relabeling combined with
reordering of the quad list: two isomorphic quad lists canonicalize to the
same string. -/
theorem canonize_iso {Q Q' : List Quad} {π : String → String}
    (hinj : ∀ b1 ∈ blanksSorted Q, ∀ b2 ∈ blanksSorted Q, π b1 = π b2 → b1 = b2)
    (hperm : List.Perm Q' (Q.map (renameQuad π))) :
    canonize Q' = canonize Q := by
  -- the inverse relabeling on the blanks of `Q'`
  set ρ : String → String :=
    fun b' => ((blanksSorted Q).find? (fun b => π b = b')).getD b' with hρ
  have hρπ : ∀ b ∈ blanksSorted Q, ρ (π b) = b := by
    intro b hb
    have hsome : ((blanksSorted Q).find? (fun x => π x = π b)).isSome = true := by
      rw [List.find?_isSome]
      exact ⟨b, hb, by simp⟩
    obtain ⟨b0, hb0⟩ := Option.isSome_iff_exists.mp hsome
    have hprop := List.find?_some hb0
    have hmem := List.mem_of_find?_eq_some hb0
    simp only [decide_eq_true_eq] at hprop
    have : b0 = b := hinj b0 hmem b hb hprop
    simp [hρ, hb0, this]
  have hB'mem : ∀ b', b' ∈ blanksSorted Q' → ∃ b ∈ blanksSorted Q, π b = b' := by
    intro b' hb'
    have hBL : blankList (Q.map (renameQuad π)) = (blankList Q).map π := blankList_rename π Q
    have hB'eq : blanksSorted Q' = blanksSorted (Q.map (renameQuad π)) :=
      blanksSorted_congr (fun b => (blankList_perm hperm).mem_iff)
    rw [hB'eq, mem_blanksSorted, hBL] at hb'
    obtain ⟨b, hb, rfl⟩ := List.mem_map.mp hb'
    exact ⟨b, mem_blanksSorted.mpr hb, rfl⟩
  have hinj' : ∀ b1 ∈ blanksSorted Q', ∀ b2 ∈ blanksSorted Q', ρ b1 = ρ b2 → b1 = b2 := by
    intro b1 hb1 b2 hb2 heq
    obtain ⟨a1, ha1, rfl⟩ := hB'mem b1 hb1
    obtain ⟨a2, ha2, rfl⟩ := hB'mem b2 hb2
    rw [hρπ a1 ha1, hρπ a2 ha2] at heq
    rw [heq]
  have hperm' : List.Perm Q (Q'.map (renameQuad ρ)) := by
    have h1 : List.Perm (Q'.map (renameQuad ρ))
        ((Q.map (renameQuad π)).map (renameQuad ρ)) := hperm.map _
    have h2 : (Q.map (renameQuad π)).map (renameQuad ρ) = Q := by
      rw [List.map_map]
      have : ∀ q ∈ Q, (renameQuad ρ ∘ renameQuad π) q = q := by
        intro q hq
        show renameQuad ρ (renameQuad π q) = q
        rw [renameQuad_comp]
        apply renameQuad_id
        intro b hbq
        apply hρπ
        rw [mem_blanksSorted, mem_blankList_iff]
        exact ⟨q, hq, hbq⟩
      calc Q.map (renameQuad ρ ∘ renameQuad π) = Q.map id := List.map_congr_left this
        _ = Q := List.map_id Q
    exact (h2 ▸ h1).symm
  have hsub1 : ∀ s ∈ candidates Q', s ∈ candidates Q := mem_candidates_transfer hinj hperm
  have hsub2 : ∀ s ∈ candidates Q, s ∈ candidates Q' := mem_candidates_transfer hinj' hperm'
  unfold canonize
  rw [minStr_congr (fun s => ⟨hsub1 s, hsub2 s⟩)]

theorem canonAssign_inj (Q : List Quad) :
    ∀ b1 ∈ blanksSorted Q, ∀ b2 ∈ blanksSorted Q,
      assignFn (blanksSorted Q) (canonPerm Q) b1 =
        assignFn (blanksSorted Q) (canonPerm Q) b2 → b1 = b2 := by
  intro b1 hb1 b2 hb2 heq
  have hp0 := canonPerm_perm Q
  have hp0nodup : (canonPerm Q).Nodup := hp0.nodup_iff.mpr (List.nodup_range _)
  have hp0len : (canonPerm Q).length = (blanksSorted Q).length :=
    hp0.length_eq.trans (List.length_range _)
  obtain ⟨i1, hi1⟩ := Option.isSome_iff_exists.mp (idxOf?_isSome hb1)
  obtain ⟨i2, hi2⟩ := Option.isSome_iff_exists.mp (idxOf?_isSome hb2)
  obtain ⟨hi1lt, hi1val⟩ := idxOf?_spec hi1
  obtain ⟨hi2lt, hi2val⟩ := idxOf?_spec hi2
  simp only [assignFn, hi1, hi2] at heq
  have hnat : (canonPerm Q).getD i1 0 = (canonPerm Q).getD i2 0 := canonName_inj heq
  have hii : i1 = i2 :=
    nodup_getD_inj hp0nodup (hp0len ▸ hi1lt) (hp0len ▸ hi2lt) hnat
  rw [← hi1val, ← hi2val, hii]

/-- Canonicalization is idempotent: re-canonicalizing the canonical quads
returns the same string. -/
theorem canonize_idem (Q : List Quad) : canonize (canonQuads Q) = canonize Q :=
  canonize_iso (canonAssign_inj Q) (by unfold canonQuads; exact List.Perm.refl _)

/-! ## The lightweight SHACL validator (embedded from the source)

The SHACL validator service parses the shapes (Turtle, via the external
`n3` parser) and the data (JSON-LD, via the external `jsonld.toRDF`) into
two quad stores and then walks them.  The store-walking `validate` loop —
the part written in the repository — is embedded here over explicit quad
stores; the external parsers are factored out (the claims are about the
validation loop).  `getQuads`/`getValue`/`parseList` mirror the service's
helpers over the `n3` store; the store is a quad list in insertion order,
and all `getQuads` calls in the source pass `null` for the graph. -/

def SH_NodeShape : String := "http://www.w3.org/ns/shacl#NodeShape"
def SH_targetClass : String := "http://www.w3.org/ns/shacl#targetClass"
def SH_property : String := "http://www.w3.org/ns/shacl#property"
def SH_path : String := "http://www.w3.org/ns/shacl#path"
def SH_minCount : String := "http://www.w3.org/ns/shacl#minCount"
def SH_maxCount : String := "http://www.w3.org/ns/shacl#maxCount"
def SH_datatype : String := "http://www.w3.org/ns/shacl#datatype"
def SH_minLength : String := "http://www.w3.org/ns/shacl#minLength"
def SH_maxLength : String := "http://www.w3.org/ns/shacl#maxLength"
def SH_pattern : String := "http://www.w3.org/ns/shacl#pattern"
def SH_in : String := "http://www.w3.org/ns/shacl#in"
def SH_message : String := "http://www.w3.org/ns/shacl#message"
def RDF_type : String := "http://www.w3.org/1999/02/22-rdf-syntax-ns#type"
def RDF_first : String := "http://www.w3.org/1999/02/22-rdf-syntax-ns#first"
def RDF_rest : String := "http://www.w3.org/1999/02/22-rdf-syntax-ns#rest"
def RDF_nil : String := "http://www.w3.org/1999/02/22-rdf-syntax-ns#nil"
def rdfLangString : String := "http://www.w3.org/1999/02/22-rdf-syntax-ns#langString"

/-- `store.getQuads(subject?, predicate?, object?, null)`. -/
def getQuads (store : List Quad) (s : Option Term) (p : Option String) (o : Option Obj) :
    List Quad :=
  store.filter fun q =>
    (match s with
     | some t => q.subject = t
     | none => true) &&
    (match p with
     | some pr => q.predicate = pr
     | none => true) &&
    (match o with
     | some ob => q.object = ob
     | none => true)

/-- `term.value` of an `n3` term: the IRI text, the blank label, or the
literal's lexical value. -/
def objValue : Obj → String
  | .node (.iri s) => s
  | .node (.blank b) => b
  | .lit l => l.value

/-- `term.value` of a subject term. -/
def termValue : Term → String
  | .iri s => s
  | .blank b => b

/-- `getQuads` with an object term in subject position (used by
`parseList` and for property shapes, which are quad objects); a literal
matches no subject. -/
def subjQuads (store : List Quad) (subject : Obj) (predicate : String) : List Quad :=
  match subject with
  | .node t => getQuads store (some t) (some predicate) none
  | .lit _ => []

/-- Embedding of `getValue` (SHACL validator service, lines 97-104): the
`value` of the object of the first matching quad, else `null`. -/
def getValue (store : List Quad) (subject : Term) (predicate : String) : Option String :=
  match getQuads store (some subject) (some predicate) none with
  | [] => none
  | q :: _ => some (objValue q.object)

/-- `getValue` with a quad object in subject position. -/
def getValueO (store : List Quad) (subject : Obj) (predicate : String) : Option String :=
  match subjQuads store subject predicate with
  | [] => none
  | q :: _ => some (objValue q.object)

/-- Embedding of `parseList` (lines 117-136), with explicit fuel: the JS
`while` loop walks `rdf:first`/`rdf:rest` until `rdf:nil` or a missing
`rdf:rest` (it does not terminate on a cyclic `rdf:rest` chain; the fuel
`store.length + 1` is enough for every acyclic chain, since each step
consumes a distinct `rdf:rest` quad). -/
def parseListAux (store : List Quad) : Nat → Obj → List String
  | 0, _ => []
  | fuel + 1, current =>
    if objValue current = RDF_nil then []
    else
      let firstQ := subjQuads store current RDF_first
      let restQ := subjQuads store current RDF_rest
      let items :=
        match firstQ with
        | [] => []
        | fq :: _ => [objValue fq.object]
      match restQ with
      | [] => items
      | rq :: _ => items ++ parseListAux store fuel rq.object

/-- `parseList(store, listNode)`. -/
def parseList (store : List Quad) (listNode : Obj) : List String :=
  parseListAux store (store.length + 1) listNode

/-- One entry of the validation report. -/
structure VResult where
  focusNode : String
  path : String
  severity : String
  message : String
  value : Option String
deriving DecidableEq, Repr

/-- The validation report: `conforms` starts `true` and is set to `false`
by every appended violation. -/
structure Report where
  conforms : Bool
  results : List VResult
deriving DecidableEq, Repr

/-- `report.conforms = false; report.results.push(v)`. -/
def pushViolation (r : Report) (v : VResult) : Report :=
  { conforms := false, results := r.results ++ [v] }

/-- Push a violation when the (report-independent) condition holds. -/
def condPush (c : Bool) (v : VResult) (r : Report) : Report :=
  if c then pushViolation r v else r

/-- JavaScript `parseInt`: skip leading whitespace, optional sign, then a
non-empty digit prefix; `none` models `NaN`. -/
def jsParseInt (s : String) : Option Int :=
  let cs := s.data.dropWhile isJsWs
  let sign : Int :=
    match cs with
    | '-' :: _ => -1
    | _ => 1
  let cs2 :=
    match cs with
    | '-' :: t => t
    | '+' :: t => t
    | _ => cs
  let digits := cs2.takeWhile Char.isDigit
  if digits.isEmpty then none
  else some (sign * (digits.foldl (fun acc c => acc * 10 + (c.toNat - 48)) 0 : Nat))

/-- `a < parseInt s` with JS `NaN` semantics (`x < NaN` is false). -/
def jsLtNum (a : Nat) (s : String) : Bool :=
  match jsParseInt s with
  | some k => (a : Int) < k
  | none => false

/-- `a > parseInt s` with JS `NaN` semantics. -/
def jsGtNum (a : Nat) (s : String) : Bool :=
  match jsParseInt s with
  | some k => (a : Int) > k
  | none => false

/-- JS truthiness of a possibly-missing string (`null` and `""` are
falsy). -/
def truthyOpt : Option String → Bool
  | some s => !(s = "")
  | none => false

/-- `message || default`. -/
def msgOr (message : Option String) (dflt : String) : String :=
  if truthyOpt message then message.getD "" else dflt

/-- The datatype an `n3` literal reports: `rdf:langString` for a
language-tagged literal, else the explicit datatype, else `xsd:string`
(`value.datatype` is always present on an `n3` literal). -/
def n3Datatype (l : Lit) : String :=
  match l.lang with
  | some _ => rdfLangString
  | none => l.datatype.getD xsdString

/-- The per-value constraint checks (SHACL validator service, lines
216-286), in source order: `datatype`, `pattern`, `minLength`,
`maxLength`, `in`.  Every push is independent — no check short-circuits
another. -/
def checkValue (regexTest : String → String → Bool) (message : Option String)
    (path : String) (focus : Term)
    (datatype pattern minLength maxLength : Option String)
    (inList : Option (List String)) (r : Report) (vq : Quad) : Report :=
  let valueStr := objValue vq.object
  let dtViol : Bool :=
    truthyOpt datatype &&
      (match vq.object with
       | .lit l => !(n3Datatype l = datatype.getD "")
       | _ => false)
  let patViol : Bool := truthyOpt pattern && !(regexTest (pattern.getD "") valueStr)
  let minLViol : Bool :=
    match minLength with
    | some ml => jsLtNum valueStr.length ml
    | none => false
  let maxLViol : Bool :=
    match maxLength with
    | some ml => jsGtNum valueStr.length ml
    | none => false
  let inViol : Bool :=
    match inList with
    | some allowed => !(allowed.contains valueStr)
    | none => false
  condPush inViol
    { focusNode := termValue focus, path := path, severity := "Violation"
      message := msgOr message
        ("Value must be one of: " ++ String.intercalate ", " (inList.getD []))
      value := some valueStr }
    (condPush maxLViol
      { focusNode := termValue focus, path := path, severity := "Violation"
        message := msgOr message
          ("Maximum length of " ++ maxLength.getD "" ++ " exceeded")
        value := some valueStr }
      (condPush minLViol
        { focusNode := termValue focus, path := path, severity := "Violation"
          message := msgOr message
            ("Minimum length of " ++ minLength.getD "" ++ " not met")
          value := some valueStr }
        (condPush patViol
          { focusNode := termValue focus, path := path, severity := "Violation"
            message := msgOr message
              ("Value does not match pattern " ++ pattern.getD "")
            value := some valueStr }
          (condPush dtViol
            { focusNode := termValue focus, path := path, severity := "Violation"
              message := msgOr message ("Expected datatype " ++ datatype.getD "")
              value := some valueStr }
            r))))

/-- The body of the property-shape loop (lines 171-287): resolve the
path, gather the values, evaluate `minCount`/`maxCount`, then every
per-value constraint. -/
def checkPropShape (regexTest : String → String → Bool)
    (dataStore shapesStore : List Quad) (focus : Term) (propShape : Obj)
    (r : Report) : Report :=
  let path? := getValueO shapesStore propShape SH_path
  if truthyOpt path? = false then r
  else
    let path := path?.getD ""
    let values := getQuads dataStore (some focus) (some path) none
    let minCount := getValueO shapesStore propShape SH_minCount
    let maxCount := getValueO shapesStore propShape SH_maxCount
    let datatype := getValueO shapesStore propShape SH_datatype
    let pattern := getValueO shapesStore propShape SH_pattern
    let maxLength := getValueO shapesStore propShape SH_maxLength
    let minLength := getValueO shapesStore propShape SH_minLength
    let message := getValueO shapesStore propShape SH_message
    let inListNode := subjQuads shapesStore propShape SH_in
    let inList : Option (List String) :=
      match inListNode with
      | [] => none
      | q :: _ => some (parseList shapesStore q.object)
    let minCViol : Bool :=
      match minCount with
      | some mc => jsLtNum values.length mc
      | none => false
    let maxCViol : Bool :=
      match maxCount with
      | some mc => jsGtNum values.length mc
      | none => false
    let r1 := condPush minCViol
      { focusNode := termValue focus, path := path, severity := "Violation"
        message := msgOr message
          ("Minimum count of " ++ minCount.getD "" ++ " not met (found " ++
            toString values.length ++ ")")
        value := none } r
    let r2 := condPush maxCViol
      { focusNode := termValue focus, path := path, severity := "Violation"
        message := msgOr message
          ("Maximum count of " ++ maxCount.getD "" ++ " exceeded (found " ++
            toString values.length ++ ")")
        value := none } r1
    values.foldl
      (checkValue regexTest message path focus datatype pattern minLength maxLength inList)
      r2

/-- The body of the instance loop (lines 165-288). -/
def checkFocus (regexTest : String → String → Bool)
    (dataStore shapesStore : List Quad) (shape : Term) (focus : Term)
    (r : Report) : Report :=
  (getQuads shapesStore (some shape) (some SH_property) none).foldl
    (fun r pq => checkPropShape regexTest dataStore shapesStore focus pq.object r) r

/-- The body of the node-shape loop (lines 155-289). -/
def checkShape (regexTest : String → String → Bool)
    (dataStore shapesStore : List Quad) (shapeQuad : Quad) (r : Report) : Report :=
  let shape := shapeQuad.subject
  let tc? := getValue shapesStore shape SH_targetClass
  if truthyOpt tc? = false then r
  else
    let targetClass := tc?.getD ""
    (getQuads dataStore none (some RDF_type) (some (.node (.iri targetClass)))).foldl
      (fun r iq => checkFocus regexTest dataStore shapesStore shape iq.subject r) r

/-- Embedding of `validate` (SHACL validator service, lines 142-295) over
parsed quad stores.  `regexTest` models `new RegExp(pattern).test(value)`
(the platform regex engine). -/
def validate (regexTest : String → String → Bool)
    (dataStore shapesStore : List Quad) : Report :=
  (getQuads shapesStore none (some RDF_type) (some (.node (.iri SH_NodeShape)))).foldl
    (fun r sq => checkShape regexTest dataStore shapesStore sq r)
    { conforms := true, results := [] }

/-! ### The report discipline: push-only, `conforms` tracks the pushes -/

/-- `f` appends exactly the violations `L` (independently of the incoming
report) and clears `conforms` iff it pushed something. -/
def stepList (f : Report → Report) (L : List VResult) : Prop :=
  ∀ r, f r = ⟨r.conforms && L.isEmpty, r.results ++ L⟩

theorem stepList_id : stepList (fun r => r) [] := by
  intro r
  simp

theorem stepList_condPush (c : Bool) (v : VResult) :
    stepList (condPush c v) (if c then [v] else []) := by
  intro r
  cases c with
  | true => simp [condPush, pushViolation]
  | false => simp [condPush]

theorem isEmpty_append {α : Type} (a b : List α) :
    (a ++ b).isEmpty = (a.isEmpty && b.isEmpty) := by
  cases a <;> simp

theorem stepList_comp {f g : Report → Report} {Lf Lg : List VResult}
    (hf : stepList f Lf) (hg : stepList g Lg) :
    stepList (fun r => g (f r)) (Lf ++ Lg) := by
  intro r
  show g (f r) = _
  have hf' : f r = ⟨r.conforms && Lf.isEmpty, r.results ++ Lf⟩ := hf r
  have hg' : g ⟨r.conforms && Lf.isEmpty, r.results ++ Lf⟩ =
      ⟨(r.conforms && Lf.isEmpty) && Lg.isEmpty, (r.results ++ Lf) ++ Lg⟩ := hg _
  rw [hf', hg']
  simp [Bool.and_assoc, List.append_assoc, isEmpty_append]

theorem stepList_foldl {α : Type} {step : Report → α → Report} {items : List α}
    {Lof : α → List VResult}
    (h : ∀ x ∈ items, stepList (fun r => step r x) (Lof x)) :
    stepList (fun r => items.foldl step r) ((items.map Lof).flatten) := by
  induction items with
  | nil => exact stepList_id
  | cons x t ih =>
    intro r
    have hx := h x (by simp)
    have ht := ih (fun y hy => h y (by simp [hy]))
    show (t.foldl step (step r x)) = _
    have hx' : step r x = ⟨r.conforms && (Lof x).isEmpty, r.results ++ Lof x⟩ := hx r
    have ht' : t.foldl step (⟨r.conforms && (Lof x).isEmpty, r.results ++ Lof x⟩ : Report) =
        ⟨(r.conforms && (Lof x).isEmpty) && ((t.map Lof).flatten).isEmpty,
          (r.results ++ Lof x) ++ (t.map Lof).flatten⟩ := ht _
    rw [hx', ht']
    simp [Bool.and_assoc, List.append_assoc, isEmpty_append]

/-- All-violation lists: the only severity the validator ever appends. -/
def allViol (L : List VResult) : Prop := ∀ v ∈ L, v.severity = "Violation"

theorem exStep_condPush {c : Bool} {v : VResult} (hv : v.severity = "Violation") :
    ∃ L, stepList (condPush c v) L ∧ allViol L := by
  refine ⟨if c then [v] else [], stepList_condPush c v, ?_⟩
  cases c with
  | true => simpa [allViol] using hv
  | false => simp [allViol]

theorem exStep_comp {f g : Report → Report}
    (hf : ∃ L, stepList f L ∧ allViol L) (hg : ∃ L, stepList g L ∧ allViol L) :
    ∃ L, stepList (fun r => g (f r)) L ∧ allViol L := by
  obtain ⟨Lf, hf1, hf2⟩ := hf
  obtain ⟨Lg, hg1, hg2⟩ := hg
  refine ⟨Lf ++ Lg, stepList_comp hf1 hg1, ?_⟩
  intro v hv
  rcases List.mem_append.mp hv with h | h
  · exact hf2 v h
  · exact hg2 v h

theorem exStep_foldl {α : Type} {step : Report → α → Report} {items : List α}
    (h : ∀ x ∈ items, ∃ L, stepList (fun r => step r x) L ∧ allViol L) :
    ∃ L, stepList (fun r => items.foldl step r) L ∧ allViol L := by
  induction items with
  | nil => exact ⟨[], stepList_id, by simp [allViol]⟩
  | cons x t ih =>
    obtain ⟨Lx, hx1, hx2⟩ := h x (by simp)
    obtain ⟨Lt, ht1, ht2⟩ := ih (fun y hy => h y (by simp [hy]))
    refine ⟨Lx ++ Lt, ?_, ?_⟩
    · intro r
      show t.foldl step (step r x) = _
      have hx' : step r x = ⟨r.conforms && Lx.isEmpty, r.results ++ Lx⟩ := hx1 r
      have ht' : t.foldl step (⟨r.conforms && Lx.isEmpty, r.results ++ Lx⟩ : Report) =
          ⟨(r.conforms && Lx.isEmpty) && Lt.isEmpty, (r.results ++ Lx) ++ Lt⟩ := ht1 _
      rw [hx', ht']
      simp [Bool.and_assoc, List.append_assoc, isEmpty_append]
    · intro v hv
      rcases List.mem_append.mp hv with h1 | h1
      · exact hx2 v h1
      · exact ht2 v h1

theorem exStep_checkValue (regexTest : String → String → Bool)
    (message : Option String) (path : String) (focus : Term)
    (datatype pattern minLength maxLength : Option String)
    (inList : Option (List String)) (vq : Quad) :
    ∃ L, stepList (fun r => checkValue regexTest message path focus datatype pattern
      minLength maxLength inList r vq) L ∧ allViol L := by
  unfold checkValue
  refine exStep_comp (exStep_comp (exStep_comp (exStep_comp
    (exStep_condPush rfl) (exStep_condPush rfl)) (exStep_condPush rfl))
    (exStep_condPush rfl)) (exStep_condPush rfl)

theorem exStep_of_eq {f g : Report → Report} (heq : ∀ r, f r = g r)
    (h : ∃ L, stepList g L ∧ allViol L) : ∃ L, stepList f L ∧ allViol L := by
  obtain ⟨L, h1, h2⟩ := h
  exact ⟨L, fun r => (heq r).trans (h1 r), h2⟩

theorem exStep_shapePattern {c1 c2 : Bool} {v1 v2 : VResult}
    (h1 : v1.severity = "Violation") (h2 : v2.severity = "Violation")
    {step : Report → Quad → Report} {values : List Quad}
    (hstep : ∀ vq ∈ values, ∃ L, stepList (fun r => step r vq) L ∧ allViol L) :
    ∃ L, stepList (fun r => values.foldl step (condPush c2 v2 (condPush c1 v1 r))) L ∧
      allViol L := by
  obtain ⟨L1, ha1, ha2⟩ :=
    exStep_comp (exStep_condPush (c := c1) h1) (exStep_condPush (c := c2) h2)
  obtain ⟨L2, hb1, hb2⟩ := exStep_foldl hstep
  refine ⟨L1 ++ L2, ?_, ?_⟩
  · intro r
    have hh1 : condPush c2 v2 (condPush c1 v1 r) =
        ⟨r.conforms && L1.isEmpty, r.results ++ L1⟩ := ha1 r
    have hh2 : values.foldl step (⟨r.conforms && L1.isEmpty, r.results ++ L1⟩ : Report) =
        ⟨(r.conforms && L1.isEmpty) && L2.isEmpty, (r.results ++ L1) ++ L2⟩ := hb1 _
    show values.foldl step (condPush c2 v2 (condPush c1 v1 r)) = _
    rw [hh1, hh2]
    simp [Bool.and_assoc, List.append_assoc, isEmpty_append]
  · intro v hv
    rcases List.mem_append.mp hv with h | h
    · exact ha2 v h
    · exact hb2 v h

theorem exStep_checkPropShape (regexTest : String → String → Bool)
    (dataStore shapesStore : List Quad) (focus : Term) (propShape : Obj) :
    ∃ L, stepList (fun r => checkPropShape regexTest dataStore shapesStore focus
      propShape r) L ∧ allViol L := by
  by_cases hpath : truthyOpt (getValueO shapesStore propShape SH_path) = false
  · refine ⟨[], ?_, by simp [allViol]⟩
    intro r
    unfold checkPropShape
    dsimp only
    rw [if_pos hpath]
    simp
  · have hrw : ∀ r, checkPropShape regexTest dataStore shapesStore focus propShape r =
        (getQuads dataStore (some focus)
            (some ((getValueO shapesStore propShape SH_path).getD "")) none).foldl
          (checkValue regexTest (getValueO shapesStore propShape SH_message)
            ((getValueO shapesStore propShape SH_path).getD "") focus
            (getValueO shapesStore propShape SH_datatype)
            (getValueO shapesStore propShape SH_pattern)
            (getValueO shapesStore propShape SH_minLength)
            (getValueO shapesStore propShape SH_maxLength)
            (match subjQuads shapesStore propShape SH_in with
             | [] => none
             | q :: _ => some (parseList shapesStore q.object)))
          (condPush
            (match getValueO shapesStore propShape SH_maxCount with
             | some mc => jsGtNum (getQuads dataStore (some focus)
                 (some ((getValueO shapesStore propShape SH_path).getD "")) none).length mc
             | none => false)
            { focusNode := termValue focus
              path := (getValueO shapesStore propShape SH_path).getD ""
              severity := "Violation"
              message := msgOr (getValueO shapesStore propShape SH_message)
                ("Maximum count of " ++
                  (getValueO shapesStore propShape SH_maxCount).getD "" ++
                  " exceeded (found " ++
                  toString (getQuads dataStore (some focus)
                    (some ((getValueO shapesStore propShape SH_path).getD "")) none).length ++
                  ")")
              value := none }
            (condPush
              (match getValueO shapesStore propShape SH_minCount with
               | some mc => jsLtNum (getQuads dataStore (some focus)
                   (some ((getValueO shapesStore propShape SH_path).getD "")) none).length mc
               | none => false)
              { focusNode := termValue focus
                path := (getValueO shapesStore propShape SH_path).getD ""
                severity := "Violation"
                message := msgOr (getValueO shapesStore propShape SH_message)
                  ("Minimum count of " ++
                    (getValueO shapesStore propShape SH_minCount).getD "" ++
                    " not met (found " ++
                    toString (getQuads dataStore (some focus)
                      (some ((getValueO shapesStore propShape SH_path).getD "")) none).length ++
                    ")")
                value := none } r)) := by
      intro r
      unfold checkPropShape
      dsimp only
      rw [if_neg hpath]
    exact exStep_of_eq hrw (exStep_shapePattern rfl rfl
      (fun vq _ => exStep_checkValue regexTest
        (getValueO shapesStore propShape SH_message)
        ((getValueO shapesStore propShape SH_path).getD "") focus
        (getValueO shapesStore propShape SH_datatype)
        (getValueO shapesStore propShape SH_pattern)
        (getValueO shapesStore propShape SH_minLength)
        (getValueO shapesStore propShape SH_maxLength)
        (match subjQuads shapesStore propShape SH_in with
         | [] => none
         | q :: _ => some (parseList shapesStore q.object)) vq))

theorem exStep_checkFocus (regexTest : String → String → Bool)
    (dataStore shapesStore : List Quad) (shape : Term) (focus : Term) :
    ∃ L, stepList (fun r => checkFocus regexTest dataStore shapesStore shape focus r) L ∧
      allViol L := by
  unfold checkFocus
  exact exStep_foldl (fun pq _ =>
    exStep_checkPropShape regexTest dataStore shapesStore focus pq.object)

theorem exStep_checkShape (regexTest : String → String → Bool)
    (dataStore shapesStore : List Quad) (shapeQuad : Quad) :
    ∃ L, stepList (fun r => checkShape regexTest dataStore shapesStore shapeQuad r) L ∧
      allViol L := by
  by_cases htc : truthyOpt (getValue shapesStore shapeQuad.subject SH_targetClass) = false
  · refine ⟨[], ?_, by simp [allViol]⟩
    intro r
    unfold checkShape
    dsimp only
    rw [if_pos htc]
    simp
  · have hrw : ∀ r, checkShape regexTest dataStore shapesStore shapeQuad r =
        (getQuads dataStore none (some RDF_type) (some (.node (.iri
            ((getValue shapesStore shapeQuad.subject SH_targetClass).getD ""))))).foldl
          (fun r iq => checkFocus regexTest dataStore shapesStore shapeQuad.subject
            iq.subject r) r := by
      intro r
      unfold checkShape
      dsimp only
      rw [if_neg htc]
    exact exStep_of_eq hrw (exStep_foldl (fun (iq : Quad) _ =>
      exStep_checkFocus regexTest dataStore shapesStore shapeQuad.subject iq.subject))

/-- The validator's report always has `conforms` equal to the emptiness of
its results, and every result has severity `"Violation"`. -/
theorem validate_spec (regexTest : String → String → Bool)
    (dataStore shapesStore : List Quad) :
    ∃ L, validate regexTest dataStore shapesStore = ⟨L.isEmpty, L⟩ ∧ allViol L := by
  obtain ⟨L, hL1, hL2⟩ := exStep_foldl (fun (sq : Quad) _ =>
    exStep_checkShape regexTest dataStore shapesStore sq)
  refine ⟨L, ?_, hL2⟩
  have h' : (getQuads shapesStore none (some RDF_type)
      (some (.node (.iri SH_NodeShape)))).foldl
      (fun r sq => checkShape regexTest dataStore shapesStore sq r)
      (⟨true, []⟩ : Report) = ⟨true && L.isEmpty, [] ++ L⟩ := hL1 _
  unfold validate
  rw [h']
  simp

/-! ### Concrete shapes-store families for the constraint-independence and
datatype claims -/

def xsdInteger : String := "http://www.w3.org/2001/XMLSchema#integer"

/-- A shapes store: one NodeShape targeting `c`, one property shape with
path `p` and an `sh:datatype dt` constraint. -/
def dtShapesStore (c p dt : String) : List Quad :=
  [⟨.iri "http://example.org/shape", RDF_type, .node (.iri SH_NodeShape), none⟩,
   ⟨.iri "http://example.org/shape", SH_targetClass, .node (.iri c), none⟩,
   ⟨.iri "http://example.org/shape", SH_property, .node (.iri "http://example.org/ps"), none⟩,
   ⟨.iri "http://example.org/ps", SH_path, .node (.iri p), none⟩,
   ⟨.iri "http://example.org/ps", SH_datatype, .node (.iri dt), none⟩]

/-- A data store: one node of type `c` with one literal value (lexical
`v`, datatype `d`) at path `p`. -/
def dtDataStore (c f p v d : String) : List Quad :=
  [⟨.iri f, RDF_type, .node (.iri c), none⟩,
   ⟨.iri f, p, .lit ⟨v, some d, none⟩, none⟩]

/-- A shapes store: one NodeShape with two independent property shapes,
paths `p1` and `p2`, each with `sh:minCount 1`. -/
def twoShapesStore (c p1 p2 : String) : List Quad :=
  [⟨.iri "http://example.org/shape", RDF_type, .node (.iri SH_NodeShape), none⟩,
   ⟨.iri "http://example.org/shape", SH_targetClass, .node (.iri c), none⟩,
   ⟨.iri "http://example.org/shape", SH_property, .node (.iri "http://example.org/ps1"), none⟩,
   ⟨.iri "http://example.org/shape", SH_property, .node (.iri "http://example.org/ps2"), none⟩,
   ⟨.iri "http://example.org/ps1", SH_path, .node (.iri p1), none⟩,
   ⟨.iri "http://example.org/ps1", SH_minCount, .lit ⟨"1", some xsdInteger, none⟩, none⟩,
   ⟨.iri "http://example.org/ps2", SH_path, .node (.iri p2), none⟩,
   ⟨.iri "http://example.org/ps2", SH_minCount, .lit ⟨"1", some xsdInteger, none⟩, none⟩]

/-- The same shapes store with the two `sh:property` declarations swapped. -/
def twoShapesStoreSwapped (c p1 p2 : String) : List Quad :=
  [⟨.iri "http://example.org/shape", RDF_type, .node (.iri SH_NodeShape), none⟩,
   ⟨.iri "http://example.org/shape", SH_targetClass, .node (.iri c), none⟩,
   ⟨.iri "http://example.org/shape", SH_property, .node (.iri "http://example.org/ps2"), none⟩,
   ⟨.iri "http://example.org/shape", SH_property, .node (.iri "http://example.org/ps1"), none⟩,
   ⟨.iri "http://example.org/ps1", SH_path, .node (.iri p1), none⟩,
   ⟨.iri "http://example.org/ps1", SH_minCount, .lit ⟨"1", some xsdInteger, none⟩, none⟩,
   ⟨.iri "http://example.org/ps2", SH_path, .node (.iri p2), none⟩,
   ⟨.iri "http://example.org/ps2", SH_minCount, .lit ⟨"1", some xsdInteger, none⟩, none⟩]

/-- A data store with one typed node and no property values at all. -/
def typeOnlyDataStore (c f : String) : List Quad :=
  [⟨.iri f, RDF_type, .node (.iri c), none⟩]

/-- A shapes store: one property shape with three constraints (`datatype`,
`pattern`, `minLength 5`) on path `p`. -/
def multiShapesStore (c p dt pat : String) : List Quad :=
  [⟨.iri "http://example.org/shape", RDF_type, .node (.iri SH_NodeShape), none⟩,
   ⟨.iri "http://example.org/shape", SH_targetClass, .node (.iri c), none⟩,
   ⟨.iri "http://example.org/shape", SH_property, .node (.iri "http://example.org/ps"), none⟩,
   ⟨.iri "http://example.org/ps", SH_path, .node (.iri p), none⟩,
   ⟨.iri "http://example.org/ps", SH_datatype, .node (.iri dt), none⟩,
   ⟨.iri "http://example.org/ps", SH_pattern, .lit ⟨pat, none, none⟩, none⟩,
   ⟨.iri "http://example.org/ps", SH_minLength, .lit ⟨"5", some xsdInteger, none⟩, none⟩]

/-- The `sh:datatype` check is an exact IRI comparison: exactly one
violation is reported iff the literal's datatype IRI differs from the
constraint IRI. -/
theorem validate_datatype_exact (rt : String → String → Bool) (c f p v d dt : String)
    (hp1 : p ≠ RDF_type) (hp0 : p ≠ "") (hdt : dt ≠ "") (hc : c ≠ "") :
    (validate rt (dtDataStore c f p v d) (dtShapesStore c p dt)).results.length =
      (if d = dt then 0 else 1) := by
  simp only [RDF_type] at hp1
  by_cases hddt : d = dt <;>
  simp [validate, dtShapesStore, dtDataStore, getQuads, List.filter, checkShape,
    checkFocus, checkPropShape, checkValue, getValue, getValueO, subjQuads, condPush,
    pushViolation, truthyOpt, msgOr, n3Datatype, objValue, termValue,
    SH_NodeShape, SH_targetClass, SH_property, SH_path, SH_datatype, SH_minCount,
    SH_maxCount, SH_pattern, SH_minLength, SH_maxLength, SH_message, SH_in, RDF_type,
    rdfLangString, xsdString, hp1, Ne.symm hp1, hdt, hc, hp0, hddt]

/-- A node violating both of two independent property shapes yields
exactly two report entries, in either declaration order. -/
theorem validate_two_prop_shapes (rt : String → String → Bool) (c f p1 p2 : String)
    (h1 : p1 ≠ RDF_type) (h2 : p2 ≠ RDF_type) (h10 : p1 ≠ "") (h20 : p2 ≠ "")
    (hc : c ≠ "") :
    (validate rt (typeOnlyDataStore c f) (twoShapesStore c p1 p2)).results.length = 2 ∧
    (validate rt (typeOnlyDataStore c f) (twoShapesStoreSwapped c p1 p2)).results.length = 2 := by
  simp only [RDF_type] at h1 h2
  constructor <;>
  simp [validate, twoShapesStore, twoShapesStoreSwapped, typeOnlyDataStore, getQuads,
    List.filter, checkShape, checkFocus, checkPropShape, checkValue, getValue, getValueO,
    subjQuads, condPush, pushViolation, truthyOpt, msgOr, n3Datatype, objValue, termValue,
    jsLtNum, jsGtNum, jsParseInt, isJsWs,
    SH_NodeShape, SH_targetClass, SH_property, SH_path, SH_datatype, SH_minCount,
    SH_maxCount, SH_pattern, SH_minLength, SH_maxLength, SH_message, SH_in, RDF_type,
    rdfLangString, xsdString, xsdInteger, h1, Ne.symm h1, h2, Ne.symm h2, h10, h20, hc]

/-- A single value failing three constraints yields exactly three report
entries — one per failed constraint, no short-circuiting. -/
theorem validate_multi_constraint (rt : String → String → Bool) (c f p v d dt pat : String)
    (hp1 : p ≠ RDF_type) (hp0 : p ≠ "") (hdt : dt ≠ "") (hpat : pat ≠ "") (hc : c ≠ "")
    (hd : d ≠ dt) (hrt : rt pat v = false) (hv5 : v.length < 5) :
    (validate rt (dtDataStore c f p v d) (multiShapesStore c p dt pat)).results.length = 3 := by
  simp only [RDF_type] at hp1
  have hv5' : (v.length : Int) < 5 := by exact_mod_cast hv5
  simp [validate, multiShapesStore, dtDataStore, getQuads,
    List.filter, checkShape, checkFocus, checkPropShape, checkValue, getValue, getValueO,
    subjQuads, condPush, pushViolation, truthyOpt, msgOr, n3Datatype, objValue, termValue,
    jsLtNum, jsGtNum, jsParseInt, isJsWs,
    SH_NodeShape, SH_targetClass, SH_property, SH_path, SH_datatype, SH_minCount,
    SH_maxCount, SH_pattern, SH_minLength, SH_maxLength, SH_message, SH_in, RDF_type,
    rdfLangString, xsdString, xsdInteger, hp1, Ne.symm hp1, hp0, hdt, hpat, hc, hd,
    hrt, hv5']

/-! ## The context registry and document loader (embedded from the source)

`registerContext`, `normalizeContextDocument`, `fetchWithCorsRetry` and
`customLoader` (JsonLdProcessor.js, lines 35-266).  JSON values are
modelled by `JsVal`; the network (`fetch` + response decoding + JSON
parsing) is the external platform and is passed in as `fetchFn : String →
Option JsVal` (`none` = network/HTTP/parse failure); `encodeURIComponent`
is likewise passed in.  The registry and the remote-context cache are
association lists in insertion order, mirroring the JS `Map`s. -/

/-- A JSON value. -/
inductive JsVal where
  | null
  | bool (b : Bool)
  | num (n : Int)
  | str (s : String)
  | arr (items : List JsVal)
  | obj (entries : List (String × JsVal))

/-- JavaScript truthiness. -/
def jsTruthy : JsVal → Bool
  | .null => false
  | .bool b => b
  | .num n => !(n = 0)
  | .str s => !(s = "")
  | .arr _ => true
  | .obj _ => true

/-- `typeof v === 'object'` (`null` and arrays are objects in JS). -/
def jsTypeofObject : JsVal → Bool
  | .null => true
  | .arr _ => true
  | .obj _ => true
  | _ => false

/-- `Map.prototype.get`. -/
def mapGet (m : List (String × JsVal)) (k : String) : Option JsVal :=
  match m.find? (fun p => p.1 = k) with
  | some p => some p.2
  | none => none

/-- `Map.prototype.set`: replace in place, else append (insertion order). -/
def mapSet (m : List (String × JsVal)) (k : String) (v : JsVal) : List (String × JsVal) :=
  if (mapGet m k).isSome then m.map (fun p => if p.1 = k then (k, v) else p)
  else m ++ [(k, v)]

/-- `v[k]` for a string key: defined only on objects (the keys looked up
in the source, `"@id"` etc., are never array indices). -/
def jsIndex (v : JsVal) (k : String) : Option JsVal :=
  match v with
  | .obj entries => mapGet entries k
  | _ => none

/-- `Object.keys(v)` paired with the values: an array yields its index
keys. -/
def jsKeyVals : JsVal → List (String × JsVal)
  | .obj entries => entries
  | .arr items => items.enum.map fun p => (toString p.1, p.2)
  | _ => []

/-- Truthiness of a possibly-undefined value. -/
def jsTruthyV : Option JsVal → Bool
  | some v => jsTruthy v
  | none => false

/-- One entry of the `looksLikeContext` check (lines 80-84):
`typeof val === 'string' || (typeof val === 'object' && val !== null &&
(val['@id'] || val['@type'] || val['@container']))`.  An array value
passes the `typeof`/`null` tests but its `'@id'`-style lookups are all
`undefined`, hence falsy. -/
def looksLikeCtxEntry : JsVal → Bool
  | .str _ => true
  | .obj entries =>
    jsTruthyV (mapGet entries "@id") || jsTruthyV (mapGet entries "@type") ||
      jsTruthyV (mapGet entries "@container")
  | _ => false

/-- `!doc || typeof doc !== 'object'` (line 67): true for `null`,
booleans, numbers and strings; false for arrays and objects. -/
def failsObjectCheck : JsVal → Bool
  | .null => true
  | .bool _ => true
  | .num _ => true
  | .str _ => true
  | .arr _ => false
  | .obj _ => false

/-- Embedding of `normalizeContextDocument` (lines 66-93). -/
def normalizeContextDocument (doc : JsVal) : JsVal :=
  if failsObjectCheck doc then JsVal.obj [("@context", JsVal.obj [])]
  else if (jsIndex doc "@context").isSome then doc
  else if (jsKeyVals doc).any (fun kv => looksLikeCtxEntry kv.2) then
    JsVal.obj [("@context", doc)]
  else doc

/-- `hay` starts with `needle` (char-list form of `String.startsWith`). -/
def startsWithL : List Char → List Char → Bool
  | [], _ => true
  | _ :: _, [] => false
  | n :: nt, h :: ht => n = h && startsWithL nt ht

/-- `hay` contains `needle` as a contiguous substring. -/
def containsL (needle : List Char) : List Char → Bool
  | [] => needle.isEmpty
  | c :: rest => startsWithL needle (c :: rest) || containsL needle rest

/-- Embedding of `registerContext` (lines 35-47); `uuid` stands for the
platform's `crypto.randomUUID()`.  Returns the minted urn and the updated
registry (the `localStorage` flush has no effect on the returned value). -/
def registerContext (uuid : String) (registry : List (String × JsVal))
    (context : JsVal) : String × List (String × JsVal) :=
  let urn := "urn:context:" ++ uuid
  let contextDoc := JsVal.obj [("@context", context)]
  (urn, mapSet registry urn contextDoc)

/-- The three CORS proxy URL builders (lines 53-57). -/
def CORS_PROXIES (encode : String → String) : List (String → String) :=
  [fun url => "https://corsproxy.io/?" ++ encode url,
   fun url => "https://api.allorigins.win/raw?url=" ++ encode url,
   fun url => "https://cors-anywhere.herokuapp.com/" ++ url]

/-- Embedding of `fetchWithCorsRetry` (lines 100-184): cache hit, else
direct fetch, else the proxies in order, else the aggregated error.  The
cache-update writes do not affect the returned value and are omitted; the
proxy-path JSON extraction is part of `fetchFn`. -/
def fetchWithCorsRetry (fetchFn : String → Option JsVal) (encode : String → String)
    (cache : List (String × JsVal)) (url : String) : Except String JsVal :=
  match mapGet cache url with
  | some doc => .ok doc
  | none =>
    match fetchFn url with
    | some doc => .ok (normalizeContextDocument doc)
    | none =>
      match (CORS_PROXIES encode).findSome? (fun proxyFn => fetchFn (proxyFn url)) with
      | some doc => .ok (normalizeContextDocument doc)
      | none => .error ("Failed to fetch context from " ++ url ++
          " - all methods failed (direct and CORS proxies)")

/-- The loader's result record `{contextUrl, document, documentUrl}`. -/
structure RemoteDoc where
  contextUrl : Option String
  document : JsVal
  documentUrl : String

/-- The canned contexts table of `customLoader` (lines 205-242). -/
def cannedContexts (url : String) : Option JsVal :=
  if url = "https://schema.org" then
    some (JsVal.obj [("@context", JsVal.obj
      [("@vocab", .str "https://schema.org/"),
       ("name", .str "https://schema.org/name"),
       ("description", .str "https://schema.org/description"),
       ("url", .obj [("@id", .str "https://schema.org/url"), ("@type", .str "@id")]),
       ("image", .obj [("@id", .str "https://schema.org/image"), ("@type", .str "@id")]),
       ("email", .str "https://schema.org/email"),
       ("telephone", .str "https://schema.org/telephone"),
       ("address", .str "https://schema.org/address"),
       ("dateCreated", .obj [("@id", .str "https://schema.org/dateCreated"),
         ("@type", .str "http://www.w3.org/2001/XMLSchema#dateTime")]),
       ("dateModified", .obj [("@id", .str "https://schema.org/dateModified"),
         ("@type", .str "http://www.w3.org/2001/XMLSchema#dateTime")]),
       ("datePublished", .obj [("@id", .str "https://schema.org/datePublished"),
         ("@type", .str "http://www.w3.org/2001/XMLSchema#date")]),
       ("author", .str "https://schema.org/author"),
       ("publisher", .str "https://schema.org/publisher"),
       ("headline", .str "https://schema.org/headline"),
       ("articleBody", .str "https://schema.org/articleBody"),
       ("keywords", .str "https://schema.org/keywords"),
       ("sameAs", .obj [("@id", .str "https://schema.org/sameAs"), ("@type", .str "@id")])])])
  else if url = "http://schema.org" then
    some (JsVal.obj [("@context", JsVal.obj [("@vocab", .str "https://schema.org/")])])
  else if url = "https://schema.org/" then
    some (JsVal.obj [("@context", JsVal.obj [("@vocab", .str "https://schema.org/")])])
  else if url = "http://schema.org/" then
    some (JsVal.obj [("@context", JsVal.obj [("@vocab", .str "https://schema.org/")])])
  else none

/-- Embedding of `customLoader` (lines 189-266): registry (with the
looks-like-a-urn 404), canned contexts, then the network with the
wrapping error message. -/
def customLoader (fetchFn : String → Option JsVal) (encode : String → String)
    (registry cache : List (String × JsVal)) (url : String) :
    Except String RemoteDoc :=
  if startsWithL "urn:context:".data url.data || (mapGet registry url).isSome then
    match mapGet registry url with
    | some doc => .ok ⟨none, doc, url⟩
    | none => .error ("Context not found in registry: " ++ url)
  else
    match cannedContexts url with
    | some doc => .ok ⟨none, doc, url⟩
    | none =>
      match fetchWithCorsRetry fetchFn encode cache url with
      | .ok doc => .ok ⟨none, doc, url⟩
      | .error e => .error ("Could not load remote context from " ++ url ++ ": " ++ e)

/-- The `{success: true, data} / {success: false, error}` result shape of
every public operation. -/
inductive JsResult (α : Type) where
  | success (data : α)
  | failure (error : String)

/-- Modelled from the spec: the context-resolution step of the expansion.
`jsonld.expand` (external) resolves the document's remote `@context`
through the document loader; an unresolvable reference "aborts the
transformation that requested it (no partial/empty-context fallback)",
and the repository's `expand` wrapper (lines 275-282) catches the thrown
error and returns `{success: false, error: error.message}`.  The
expansion proper over a resolved context is abstracted as `expander`. -/
def expand (expander : JsVal → Option RemoteDoc → JsVal)
    (fetchFn : String → Option JsVal) (encode : String → String)
    (registry cache : List (String × JsVal)) (doc : JsVal) : JsResult JsVal :=
  match jsIndex doc "@context" with
  | some (.str url) =>
    match customLoader fetchFn encode registry cache url with
    | .ok rd => .success (expander doc (some rd))
    | .error e => .failure e
  | _ => .success (expander doc none)

/-! ### String and map lemmas for the loader claims -/

theorem startsWithL_self_append (n r : List Char) : startsWithL n (n ++ r) = true := by
  induction n with
  | nil => rfl
  | cons c t ih => simp [startsWithL, ih]

theorem containsL_of_startsWith {n l : List Char} (h : startsWithL n l = true) :
    containsL n l = true := by
  cases l with
  | nil =>
    cases n with
    | nil => rfl
    | cons c t => simp [startsWithL] at h
  | cons c rest => simp [containsL, h]

theorem containsL_mid (n pre post : List Char) :
    containsL n (pre ++ (n ++ post)) = true := by
  induction pre with
  | nil => exact containsL_of_startsWith (startsWithL_self_append n post)
  | cons c t ih =>
    cases h : startsWithL n (c :: (t ++ (n ++ post))) with
    | true => simp [containsL, h]
    | false => simpa [containsL, h] using ih

theorem mapGet_mapSet_self (m : List (String × JsVal)) (k : String) (v : JsVal) :
    mapGet (mapSet m k v) k = some v := by
  by_cases h : (mapGet m k).isSome
  · unfold mapSet
    rw [if_pos h]
    induction m with
    | nil => simp [mapGet] at h
    | cons p t ih =>
      by_cases hp : p.1 = k
      · simp [mapGet, List.find?_cons, hp]
      · have ht : (mapGet t k).isSome := by
          simp only [mapGet, List.find?_cons] at h
          rw [decide_eq_false hp] at h
          simpa [mapGet] using h
        have ih' := ih ht
        simp only [List.map_cons, mapGet, List.find?_cons, if_neg hp, decide_eq_false hp]
        simpa [mapGet] using ih'
  · unfold mapSet
    rw [if_neg h]
    have hnone : m.find? (fun p => p.1 = k) = none := by
      simp only [mapGet] at h
      cases hf : m.find? (fun p => p.1 = k) with
      | none => rfl
      | some p => rw [hf] at h; simp at h
    induction m with
    | nil => simp [mapGet, List.find?_cons]
    | cons p t ih =>
      have hp : ¬(p.1 = k) := by
        intro hcon
        rw [List.find?_cons, decide_eq_true hcon] at hnone
        simp at hnone
      have htn : t.find? (fun p => p.1 = k) = none := by
        rw [List.find?_cons, decide_eq_false hp] at hnone
        exact hnone
      have ih' := ih (by simp [mapGet, htn]) htn
      simp only [List.cons_append, mapGet, List.find?_cons, decide_eq_false hp]
      simpa [mapGet] using ih'

/-- Total loader failure: `expand` surfaces a failure whose message
contains the failing URL — never a silently substituted empty context. -/
theorem expand_fails_on_unresolvable (expander : JsVal → Option RemoteDoc → JsVal)
    (fetchFn : String → Option JsVal) (encode : String → String)
    (registry cache : List (String × JsVal)) (doc : JsVal) (url : String)
    (hctx : jsIndex doc "@context" = some (.str url))
    (hurn : startsWithL "urn:context:".data url.data = false)
    (hreg : mapGet registry url = none)
    (hcanned : cannedContexts url = none)
    (hcache : mapGet cache url = none)
    (hdirect : fetchFn url = none)
    (hproxies : ∀ proxyFn ∈ CORS_PROXIES encode, fetchFn (proxyFn url) = none) :
    ∃ e, expand expander fetchFn encode registry cache doc = .failure e ∧
      containsL url.data e.data = true := by
  have hfind : (CORS_PROXIES encode).findSome? (fun proxyFn => fetchFn (proxyFn url)) =
      none := by
    rw [List.findSome?_eq_none_iff]
    exact hproxies
  have hfetch : fetchWithCorsRetry fetchFn encode cache url =
      .error ("Failed to fetch context from " ++ url ++
        " - all methods failed (direct and CORS proxies)") := by
    unfold fetchWithCorsRetry
    rw [hcache, hdirect, hfind]
  have hload : customLoader fetchFn encode registry cache url =
      .error ("Could not load remote context from " ++ url ++ ": " ++
        ("Failed to fetch context from " ++ url ++
          " - all methods failed (direct and CORS proxies)")) := by
    unfold customLoader
    rw [hurn, hreg]
    simp [hcanned, hfetch]
  refine ⟨"Could not load remote context from " ++ url ++ ": " ++
      ("Failed to fetch context from " ++ url ++
        " - all methods failed (direct and CORS proxies)"), ?_, ?_⟩
  · unfold expand
    rw [hctx]
    simp [hload]
  · have hsplit : ("Could not load remote context from " ++ url ++ ": " ++
        ("Failed to fetch context from " ++ url ++
          " - all methods failed (direct and CORS proxies)")).data =
        "Could not load remote context from ".data ++ (url.data ++
          (": " ++ ("Failed to fetch context from " ++ url ++
            " - all methods failed (direct and CORS proxies)")).data) := by
      simp
    rw [hsplit]
    exact containsL_mid _ _ _

/-! ### Registry lemmas (registerContext / customLoader urn paths) -/

theorem registerContext_urn_eq (uuid : String) (registry : List (String × JsVal))
    (context : JsVal) :
    (registerContext uuid registry context).1 = "urn:context:" ++ uuid := rfl

theorem registerContext_urn_start (uuid : String) (registry : List (String × JsVal))
    (context : JsVal) :
    startsWithL "urn:context:".data (registerContext uuid registry context).1.data
      = true := by
  rw [registerContext_urn_eq]
  have hd : ("urn:context:" ++ uuid).data = "urn:context:".data ++ uuid.data := by
    simp
  rw [hd]
  exact startsWithL_self_append _ _

theorem customLoader_after_register (fetchFn : String → Option JsVal)
    (encode : String → String) (uuid : String)
    (registry cache : List (String × JsVal)) (context : JsVal) :
    customLoader fetchFn encode (registerContext uuid registry context).2 cache
      (registerContext uuid registry context).1 =
      .ok ⟨none, JsVal.obj [("@context", context)],
        (registerContext uuid registry context).1⟩ := by
  have hget : mapGet (registerContext uuid registry context).2
      (registerContext uuid registry context).1 =
      some (JsVal.obj [("@context", context)]) :=
    mapGet_mapSet_self registry ("urn:context:" ++ uuid)
      (JsVal.obj [("@context", context)])
  unfold customLoader
  rw [hget]
  simp

theorem customLoader_urn_not_found (fetchFn : String → Option JsVal)
    (encode : String → String) (registry cache : List (String × JsVal)) (url : String)
    (hurn : startsWithL "urn:context:".data url.data = true)
    (hreg : mapGet registry url = none) :
    customLoader fetchFn encode registry cache url =
      .error ("Context not found in registry: " ++ url) := by
  unfold customLoader
  rw [hurn, hreg]
  simp

/-! ### normalizeContextDocument lemmas -/

theorem normalizeContextDocument_nonobject (doc : JsVal)
    (h : failsObjectCheck doc = true) :
    normalizeContextDocument doc = JsVal.obj [("@context", JsVal.obj [])] := by
  unfold normalizeContextDocument
  rw [if_pos h]

theorem normalizeContextDocument_passthrough (doc : JsVal)
    (h1 : failsObjectCheck doc = false)
    (h2 : (jsIndex doc "@context").isSome = false)
    (h3 : (jsKeyVals doc).any (fun kv => looksLikeCtxEntry kv.2) = false) :
    normalizeContextDocument doc = doc := by
  unfold normalizeContextDocument
  rw [if_neg (by simp [h1]), if_neg (by simp [h2]), if_neg (by simp [h3])]

theorem fetchWithCorsRetry_nonobject (fetchFn : String → Option JsVal)
    (encode : String → String) (cache : List (String × JsVal)) (url : String)
    (doc : JsVal)
    (hcache : mapGet cache url = none)
    (hdirect : fetchFn url = some doc)
    (h : failsObjectCheck doc = true) :
    fetchWithCorsRetry fetchFn encode cache url =
      .ok (JsVal.obj [("@context", JsVal.obj [])]) := by
  unfold fetchWithCorsRetry
  rw [hcache, hdirect]
  simp [normalizeContextDocument_nonobject doc h]

/-! ### The public operation boundaries (JsonLdProcessor.js lines 275-680,
part_000 lines 142-295)

JS control flow at each boundary is modelled explicitly: a called body
either returns a value or throws an error whose message is a string.  The
external library calls (jsonld.expand and friends) and the pure in-repo
assembly bodies (the Turtle builder of lines 561-667 and the recursive
jsonToYaml serializer, neither of which contains a throwing construct)
enter as `JsOutcome` parameters, so the theorems cover every behaviour of
those bodies, throwing included.  Each operation returns the literal
object written in the source: success-true with the payload field, or
success-false with the error field. -/

inductive JsOutcome (α : Type) where
  | returns (val : α)
  | throws (error : String)

/-- The success object of the eight JsonLdProcessor operations. -/
def okData (v : JsVal) : JsVal :=
  .obj [("success", .bool true), ("data", v)]

/-- The success object of part_000 validate (line 291): the payload field
is named report, not data. -/
def okReport (r : JsVal) : JsVal :=
  .obj [("success", .bool true), ("report", r)]

/-- The failure object common to every operation. -/
def errResult (e : String) : JsVal :=
  .obj [("success", .bool false), ("error", .str e)]

/-- The error-message test of toNQuads and canonize (lines 338, 370). -/
def needsRdfHelp (msg : String) : Bool :=
  containsL "termType".data msg.data || containsL "null".data msg.data ||
    containsL "Cannot read properties".data msg.data

/-- The shared bullet text of the enriched errors (lines 339-346, 371-378). -/
def rdfHelpBody : String :=
  "• Some @id values use undefined prefixes (e.g., \"sdt:\" if not defined in @context)\n" ++
  "• Some @id values use invalid URI schemes (e.g., \"data:\" is reserved for data URIs)\n" ++
  "• Properties without proper @id mappings in the @context\n" ++
  "• Some terms couldn't be resolved to valid URIs\n\n" ++
  "Tip: Check your @context defines all prefixes used in @id values.\n" ++
  "Use \"Expanded\" view to see how terms are being resolved.\n\n" ++
  "Original error: "

/-- toNQuads error enrichment (lines 334-348). -/
def enrichRdfError (msg : String) : String :=
  if needsRdfHelp msg then
    "RDF conversion failed. This usually means:\n\n" ++ rdfHelpBody ++ msg
  else msg

/-- canonize error enrichment (lines 366-380). -/
def enrichCanonError (msg : String) : String :=
  if needsRdfHelp msg then
    "Canonization failed. This usually means:\n\n" ++ rdfHelpBody ++ msg
  else msg

/-- Embedding of `expand` (lines 275-282): try/catch around jsonld.expand. -/
def expandOp (inner : JsOutcome JsVal) : JsOutcome JsVal :=
  match inner with
  | .returns d => .returns (okData d)
  | .throws e => .returns (errResult e)

/-- The context chosen by `compact` (line 289): context, else the
@context member of doc, else the empty object; the member access on a
null doc throws the engine TypeError `tyErr`. -/
def ctxOutcome (tyErr : String) (doc context : JsVal) : JsOutcome JsVal :=
  if jsTruthy context then .returns context
  else match doc with
    | .null => .throws tyErr
    | _ =>
      .returns (if jsTruthyV (jsIndex doc "@context") then
        (jsIndex doc "@context").getD (.obj []) else .obj [])

/-- Embedding of `compact` (lines 287-295). -/
def compactOp (tyErr : String) (doc context : JsVal)
    (compactFn : JsVal → JsVal → JsOutcome JsVal) : JsOutcome JsVal :=
  match ctxOutcome tyErr doc context with
  | .throws e => .returns (errResult e)
  | .returns ctx =>
    match compactFn doc ctx with
    | .returns d => .returns (okData d)
    | .throws e => .returns (errResult e)

/-- Embedding of `flatten` (lines 301-308). -/
def flattenOp (inner : JsOutcome JsVal) : JsOutcome JsVal :=
  match inner with
  | .returns d => .returns (okData d)
  | .throws e => .returns (errResult e)

/-- Embedding of `frame` (lines 314-321). -/
def frameOp (inner : JsOutcome JsVal) : JsOutcome JsVal :=
  match inner with
  | .returns d => .returns (okData d)
  | .throws e => .returns (errResult e)

/-- Embedding of `toNQuads` (lines 329-351). -/
def toNQuadsOp (inner : JsOutcome String) : JsOutcome JsVal :=
  match inner with
  | .returns nq => .returns (okData (.str nq))
  | .throws e => .returns (errResult (enrichRdfError e))

/-- Embedding of `canonize` (lines 357-383). -/
def canonizeOp (inner : JsOutcome String) : JsOutcome JsVal :=
  match inner with
  | .returns s => .returns (okData (.str s))
  | .throws e => .returns (errResult (enrichCanonError e))

/-- Embedding of `toTurtle` (lines 549-676): the inner toNQuads result is
propagated on failure, an all-whitespace N-Quads payload yields the
empty-document marker, and the pure Turtle-assembly body of lines
561-667 enters as `turtleOf` (a throw from it lands in the catch of
line 671). -/
def toTurtleOp (innerRdf : JsOutcome String)
    (turtleOf : String → JsOutcome String) : JsOutcome JsVal :=
  match innerRdf with
  | .throws e => .returns (errResult (enrichRdfError e))
  | .returns nq =>
    if nq.data.all isJsWs then
      .returns (okData (.str "# Empty document - no triples generated"))
    else
      match turtleOf nq with
      | .returns t => .returns (okData (.str t))
      | .throws e => .returns (errResult ("Turtle conversion failed: " ++ e))

/-- Embedding of `toYamlLd` (lines 682-691): the recursive jsonToYaml
serializer enters as the outcome `inner`. -/
def toYamlLdOp (inner : JsOutcome String) : JsOutcome JsVal :=
  match inner with
  | .returns y => .returns (okData (.str y))
  | .throws e => .returns (errResult ("YAML-LD conversion failed: " ++ e))

/-- A validation result rendered as the object literal of part_000
lines 194-200. -/
def vresultToJs (v : VResult) : JsVal :=
  .obj [("focusNode", .str v.focusNode), ("path", .str v.path),
        ("severity", .str v.severity), ("message", .str v.message),
        ("value", match v.value with | some s => .str s | none => .null)]

/-- The report object of part_000 lines 147-150. -/
def reportToJs (r : Report) : JsVal :=
  .obj [("conforms", .bool r.conforms),
        ("results", .arr (r.results.map vresultToJs))]

/-- Embedding of part_000 `validate` (lines 142-295) at its boundary:
the two store-building parses may throw, the validation loop itself is
the total function `validate`. -/
def shaclValidateOp (regexTest : String → String → Bool)
    (parseData parseShapes : JsOutcome (List Quad)) : JsOutcome JsVal :=
  match parseData with
  | .throws e => .returns (errResult e)
  | .returns dataStore =>
    match parseShapes with
    | .throws e => .returns (errResult e)
    | .returns shapesStore =>
      .returns (okReport (reportToJs (validate regexTest dataStore shapesStore)))

/-- An operation outcome that is a returned result object: success-true
carrying a payload under `key`, or the failure object. -/
def resultShaped (key : String) (o : JsOutcome JsVal) : Prop :=
  (∃ d, o = .returns (JsVal.obj [("success", .bool true), (key, d)])) ∨
  (∃ e, o = .returns (errResult e))

theorem expandOp_shaped (inner : JsOutcome JsVal) :
    resultShaped "data" (expandOp inner) := by
  cases inner with
  | returns d => exact Or.inl ⟨d, rfl⟩
  | throws e => exact Or.inr ⟨e, rfl⟩

theorem compactOp_shaped (tyErr : String) (doc context : JsVal)
    (compactFn : JsVal → JsVal → JsOutcome JsVal) :
    resultShaped "data" (compactOp tyErr doc context compactFn) := by
  unfold compactOp
  cases ctxOutcome tyErr doc context with
  | throws e => exact Or.inr ⟨e, rfl⟩
  | returns ctx =>
    dsimp only
    cases compactFn doc ctx with
    | returns d => exact Or.inl ⟨d, rfl⟩
    | throws e => exact Or.inr ⟨e, rfl⟩

theorem flattenOp_shaped (inner : JsOutcome JsVal) :
    resultShaped "data" (flattenOp inner) := by
  cases inner with
  | returns d => exact Or.inl ⟨d, rfl⟩
  | throws e => exact Or.inr ⟨e, rfl⟩

theorem frameOp_shaped (inner : JsOutcome JsVal) :
    resultShaped "data" (frameOp inner) := by
  cases inner with
  | returns d => exact Or.inl ⟨d, rfl⟩
  | throws e => exact Or.inr ⟨e, rfl⟩

theorem toNQuadsOp_shaped (inner : JsOutcome String) :
    resultShaped "data" (toNQuadsOp inner) := by
  cases inner with
  | returns nq => exact Or.inl ⟨.str nq, rfl⟩
  | throws e => exact Or.inr ⟨enrichRdfError e, rfl⟩

theorem canonizeOp_shaped (inner : JsOutcome String) :
    resultShaped "data" (canonizeOp inner) := by
  cases inner with
  | returns s => exact Or.inl ⟨.str s, rfl⟩
  | throws e => exact Or.inr ⟨enrichCanonError e, rfl⟩

theorem toTurtleOp_shaped (innerRdf : JsOutcome String)
    (turtleOf : String → JsOutcome String) :
    resultShaped "data" (toTurtleOp innerRdf turtleOf) := by
  unfold toTurtleOp
  cases innerRdf with
  | throws e => exact Or.inr ⟨enrichRdfError e, rfl⟩
  | returns nq =>
    dsimp only
    by_cases hws : nq.data.all isJsWs
    · rw [if_pos hws]
      exact Or.inl ⟨.str "# Empty document - no triples generated", rfl⟩
    · rw [if_neg hws]
      cases turtleOf nq with
      | returns t => exact Or.inl ⟨.str t, rfl⟩
      | throws e => exact Or.inr ⟨"Turtle conversion failed: " ++ e, rfl⟩

theorem toYamlLdOp_shaped (inner : JsOutcome String) :
    resultShaped "data" (toYamlLdOp inner) := by
  cases inner with
  | returns y => exact Or.inl ⟨.str y, rfl⟩
  | throws e => exact Or.inr ⟨"YAML-LD conversion failed: " ++ e, rfl⟩

theorem shaclValidateOp_shaped (regexTest : String → String → Bool)
    (parseData parseShapes : JsOutcome (List Quad)) :
    resultShaped "report" (shaclValidateOp regexTest parseData parseShapes) := by
  unfold shaclValidateOp
  cases parseData with
  | throws e => exact Or.inr ⟨e, rfl⟩
  | returns dataStore =>
    dsimp only
    cases parseShapes with
    | throws e => exact Or.inr ⟨e, rfl⟩
    | returns shapesStore =>
      exact Or.inl ⟨reportToJs (validate regexTest dataStore shapesStore), rfl⟩

/-! ### Framing (spec-modelled)

The matching and embedding algorithm lives in the external jsonld.js
library; the repository wrapper (part_001 lines 315-381) expands the
document, frames it with an embed-always policy, and simplifies the
result.  Modelled from the spec: an expanded document is a flat list of
nodes; a frame carries the list of types of its at-type entry and the
embed-always flag; a node matches the frame when the frame states no
type or shares a type with the node (no property-value matching); the
result lists the matching nodes, with referenced nodes recursively
embedded in place of id pointers when embed-always is set; a frame with
no matching nodes yields the empty list, not an error. -/

inductive EVal where
  | ref (id : String)
  | lit (value : String)
deriving DecidableEq, Repr

structure ENode where
  id : String
  types : List String
  props : List (String × List EVal)
deriving DecidableEq, Repr

structure Frame where
  types : List String
  embedAlways : Bool
deriving DecidableEq, Repr

/-- Modelled from the spec: a node matches a frame iff the frame has no
at-type constraint or one of the node types appears in it. -/
def nodeMatches (fr : Frame) (n : ENode) : Bool :=
  fr.types.isEmpty || n.types.any (fun t => fr.types.contains t)

/-- A framed value: a literal, an unembedded id pointer, or an embedded
node subtree. -/
inductive FVal where
  | lit (value : String)
  | ref (id : String)
  | node (id : String) (types : List String) (props : List (String × List FVal))

def lookupNode (doc : List ENode) (i : String) : Option ENode :=
  doc.find? (fun n => n.id = i)

/-- Modelled from the spec: embedding of one expanded value.  With the
embed-always policy a reference to a known node is replaced by the node
itself, recursively (fuel bounds the depth, cyclic references surface
as pointers once it runs out); otherwise the pointer is kept. -/
def embedVal (doc : List ENode) (ea : Bool) : Nat → EVal → FVal
  | _, .lit s => .lit s
  | 0, .ref i => .ref i
  | fuel+1, .ref i =>
    if ea then
      match lookupNode doc i with
      | some n => .node n.id n.types
          (n.props.map (fun p => (p.1, p.2.map (embedVal doc ea fuel))))
      | none => .ref i
    else .ref i

/-- Embedding of one matched node (its property values embedded with the
given fuel). -/
def embedNode (doc : List ENode) (ea : Bool) (fuel : Nat) (n : ENode) : FVal :=
  .node n.id n.types (n.props.map (fun p => (p.1, p.2.map (embedVal doc ea fuel))))

/-- Modelled from the spec: frame the expanded document — keep exactly
the matching nodes, each embedded under the frame policy. -/
def frameFn (doc : List ENode) (fr : Frame) : List FVal :=
  (doc.filter (fun n => nodeMatches fr n)).map
    (embedNode doc fr.embedAlways doc.length)

/-- Root identifier of a framed value. -/
def FVal.idOf : FVal → Option String
  | .lit _ => none
  | .ref i => some i
  | .node i _ _ => some i

theorem frameFn_roots (doc : List ENode) (fr : Frame) :
    (frameFn doc fr).map FVal.idOf =
      (doc.filter (fun n => nodeMatches fr n)).map (fun n => some n.id) := by
  unfold frameFn
  rw [List.map_map]
  rfl

theorem nodeMatches_iff (fr : Frame) (n : ENode) :
    nodeMatches fr n = true ↔ (fr.types = [] ∨ ∃ t ∈ n.types, t ∈ fr.types) := by
  simp [nodeMatches, List.isEmpty_iff]

theorem frameFn_no_match (doc : List ENode) (fr : Frame)
    (h : ∀ n ∈ doc, nodeMatches fr n = false) : frameFn doc fr = [] := by
  unfold frameFn
  rw [List.filter_eq_nil_iff.mpr (by intro n hn; simp [h n hn])]
  rfl

theorem embedVal_embeds (doc : List ENode) (fuel : Nat) (i : String) (m : ENode)
    (hm : lookupNode doc i = some m) :
    embedVal doc true (fuel + 1) (.ref i) = embedNode doc true fuel m := by
  unfold embedVal embedNode
  rw [hm]
  simp

theorem embedVal_pointer (doc : List ENode) (fuel : Nat) (i : String) :
    embedVal doc false fuel (.ref i) = .ref i := by
  cases fuel <;> simp [embedVal]

/-! ## Claims -/

/-- C1: canonicalization is idempotent — re-canonicalizing the canonical
quads yields the same string — and invariant under blank-node relabeling
combined with reordering of the quad list: two isomorphic quad lists
canonicalize to byte-identical output. -/
theorem claim_C1 (Q Q' : List Quad) (π : String → String)
    (hinj : ∀ b1 ∈ blanksSorted Q, ∀ b2 ∈ blanksSorted Q, π b1 = π b2 → b1 = b2)
    (hperm : List.Perm Q' (Q.map (renameQuad π))) :
    canonize (canonQuads Q) = canonize Q ∧ canonize Q' = canonize Q :=
  ⟨canonize_idem Q, canonize_iso hinj hperm⟩

theorem claim_C1_witness :
    (∀ b1 ∈ blanksSorted [Quad.mk (.blank "a") "p" (.node (.blank "b")) none,
        Quad.mk (.blank "b") "q" (.lit ⟨"v", none, none⟩) none],
      ∀ b2 ∈ blanksSorted [Quad.mk (.blank "a") "p" (.node (.blank "b")) none,
        Quad.mk (.blank "b") "q" (.lit ⟨"v", none, none⟩) none],
      (fun s => if s = "a" then "x" else if s = "b" then "y" else s) b1 =
        (fun s => if s = "a" then "x" else if s = "b" then "y" else s) b2 →
        b1 = b2) ∧
    List.Perm [Quad.mk (.blank "y") "q" (.lit ⟨"v", none, none⟩) none,
        Quad.mk (.blank "x") "p" (.node (.blank "y")) none]
      ([Quad.mk (.blank "a") "p" (.node (.blank "b")) none,
        Quad.mk (.blank "b") "q" (.lit ⟨"v", none, none⟩) none].map
        (renameQuad (fun s => if s = "a" then "x" else if s = "b" then "y" else s))) ∧
    (canonize (canonQuads [Quad.mk (.blank "a") "p" (.node (.blank "b")) none,
        Quad.mk (.blank "b") "q" (.lit ⟨"v", none, none⟩) none]) =
      canonize [Quad.mk (.blank "a") "p" (.node (.blank "b")) none,
        Quad.mk (.blank "b") "q" (.lit ⟨"v", none, none⟩) none] ∧
     canonize [Quad.mk (.blank "y") "q" (.lit ⟨"v", none, none⟩) none,
        Quad.mk (.blank "x") "p" (.node (.blank "y")) none] =
      canonize [Quad.mk (.blank "a") "p" (.node (.blank "b")) none,
        Quad.mk (.blank "b") "q" (.lit ⟨"v", none, none⟩) none]) :=
  ⟨by
    intro b1 hb1 b2 hb2
    rw [mem_blanksSorted] at hb1 hb2
    simp [blankList, quadBlanks, termBlanks, objBlanks] at hb1 hb2
    rcases hb1 with rfl | rfl <;> rcases hb2 with rfl | rfl <;> simp,
   by decide,
   claim_C1
     [Quad.mk (.blank "a") "p" (.node (.blank "b")) none,
      Quad.mk (.blank "b") "q" (.lit ⟨"v", none, none⟩) none]
     [Quad.mk (.blank "y") "q" (.lit ⟨"v", none, none⟩) none,
      Quad.mk (.blank "x") "p" (.node (.blank "y")) none]
     (fun s => if s = "a" then "x" else if s = "b" then "y" else s)
     (by
       intro b1 hb1 b2 hb2
       rw [mem_blanksSorted] at hb1 hb2
       simp [blankList, quadBlanks, termBlanks, objBlanks] at hb1 hb2
       rcases hb1 with rfl | rfl <;> rcases hb2 with rfl | rfl <;> simp)
     (by decide)⟩

/-- C2 counterexample: a literal value containing a double quote is
serialized with a backslash escape that the parsing regular expression
(whose literal alternative forbids any inner quote) does not accept, so
the line is skipped and the quad is lost — the round trip is not the
identity on all quad sets the serializer accepts. -/
theorem claim_C2_counterexample :
    parseNQuads (toNQuads [Quad.mk (.iri "http://e/s") "http://e/p"
        (.lit ⟨"say \"hi\"", none, none⟩) none]) ≠
      [Quad.mk (.iri "http://e/s") "http://e/p"
        (.lit ⟨"say \"hi\"", none, none⟩) none].map quadToTriple := by
  decide

/-- C2 (amended): for every quad list whose quads are well-formed for
this serializer-parser pair — IRIs nonempty without a closing angle
bracket, space or newline; blank labels nonempty without whitespace;
literal values free of double quotes, backslashes and newlines; language
tags nonempty over lowercase letters and hyphens; graph either absent or
an IRI — every line of the toNQuads output is re-parsed by parseNQuads
into a triple equal to the source quad, losing no quad and altering no
component. -/
theorem claim_C2 (Q : List Quad) (h : ∀ q ∈ Q, wfQuad q = true) :
    parseNQuads (toNQuads Q) = Q.map quadToTriple :=
  parseNQuads_toNQuads_wf Q h

theorem claim_C2_witness :
    (∀ q ∈ [Quad.mk (.iri "http://e/s") "http://e/p"
        (.lit ⟨"30", some "http://www.w3.org/2001/XMLSchema#integer", none⟩)
        (some (.iri "http://e/g")),
      Quad.mk (.blank "b0") "http://e/p2" (.node (.blank "b1")) none],
      wfQuad q = true) ∧
    parseNQuads (toNQuads [Quad.mk (.iri "http://e/s") "http://e/p"
        (.lit ⟨"30", some "http://www.w3.org/2001/XMLSchema#integer", none⟩)
        (some (.iri "http://e/g")),
      Quad.mk (.blank "b0") "http://e/p2" (.node (.blank "b1")) none]) =
      [Quad.mk (.iri "http://e/s") "http://e/p"
        (.lit ⟨"30", some "http://www.w3.org/2001/XMLSchema#integer", none⟩)
        (some (.iri "http://e/g")),
      Quad.mk (.blank "b0") "http://e/p2" (.node (.blank "b1")) none].map
        quadToTriple :=
  ⟨by decide, claim_C2 _ (by decide)⟩

/-- C3: framing matches nodes against the frame's at-type entry (a frame
stating no type matches every node, otherwise a shared type is
required), the embed-always policy replaces a reference to a known node
by the embedded node, and a frame with no matching nodes returns the
empty result while the frame boundary still returns a success object,
not an error. -/
theorem claim_C3 (doc docN : List ENode) (fr frN : Frame) (n : ENode)
    (i : String) (m : ENode) (fuel : Nat)
    (hm : lookupNode doc i = some m)
    (hno : ∀ x ∈ docN, nodeMatches frN x = false) :
    (nodeMatches fr n = true ↔ (fr.types = [] ∨ ∃ t ∈ n.types, t ∈ fr.types)) ∧
    (frameFn doc fr).map FVal.idOf =
      (doc.filter (fun x => nodeMatches fr x)).map (fun x => some x.id) ∧
    embedVal doc true (fuel + 1) (.ref i) = embedNode doc true fuel m ∧
    frameFn docN frN = [] ∧
    frameOp (.returns (JsVal.arr [])) = .returns (okData (JsVal.arr [])) :=
  ⟨nodeMatches_iff fr n, frameFn_roots doc fr, embedVal_embeds doc fuel i m hm,
   frameFn_no_match docN frN hno, rfl⟩

theorem claim_C3_witness :
    lookupNode [ENode.mk "http://e/1" ["http://e/T"]
        [("http://e/p", [EVal.ref "http://e/2"])],
      ENode.mk "http://e/2" ["http://e/U"] []] "http://e/2" =
      some (ENode.mk "http://e/2" ["http://e/U"] []) ∧
    (∀ x ∈ [ENode.mk "http://e/1" ["http://e/T"]
        [("http://e/p", [EVal.ref "http://e/2"])],
      ENode.mk "http://e/2" ["http://e/U"] []],
      nodeMatches (Frame.mk ["http://e/Z"] true) x = false) ∧
    ((nodeMatches (Frame.mk ["http://e/T"] true)
        (ENode.mk "http://e/1" ["http://e/T"]
          [("http://e/p", [EVal.ref "http://e/2"])]) = true ↔
      ((Frame.mk ["http://e/T"] true).types = [] ∨
        ∃ t ∈ (ENode.mk "http://e/1" ["http://e/T"]
          [("http://e/p", [EVal.ref "http://e/2"])]).types,
          t ∈ (Frame.mk ["http://e/T"] true).types)) ∧
     (frameFn [ENode.mk "http://e/1" ["http://e/T"]
        [("http://e/p", [EVal.ref "http://e/2"])],
       ENode.mk "http://e/2" ["http://e/U"] []]
        (Frame.mk ["http://e/T"] true)).map FVal.idOf =
      ([ENode.mk "http://e/1" ["http://e/T"]
        [("http://e/p", [EVal.ref "http://e/2"])],
       ENode.mk "http://e/2" ["http://e/U"] []].filter
        (fun x => nodeMatches (Frame.mk ["http://e/T"] true) x)).map
        (fun x => some x.id) ∧
     embedVal [ENode.mk "http://e/1" ["http://e/T"]
        [("http://e/p", [EVal.ref "http://e/2"])],
       ENode.mk "http://e/2" ["http://e/U"] []] true (1 + 1)
        (.ref "http://e/2") =
      embedNode [ENode.mk "http://e/1" ["http://e/T"]
        [("http://e/p", [EVal.ref "http://e/2"])],
       ENode.mk "http://e/2" ["http://e/U"] []] true 1
        (ENode.mk "http://e/2" ["http://e/U"] []) ∧
     frameFn [ENode.mk "http://e/1" ["http://e/T"]
        [("http://e/p", [EVal.ref "http://e/2"])],
       ENode.mk "http://e/2" ["http://e/U"] []]
        (Frame.mk ["http://e/Z"] true) = [] ∧
     frameOp (.returns (JsVal.arr [])) = .returns (okData (JsVal.arr []))) :=
  ⟨by decide, by decide, claim_C3 _ _ _ _ _ _ _ _ (by decide) (by decide)⟩

/-- C4: for every data store and shapes store, the report's conforms
flag is true iff the results list is empty, and every appended result
has severity Violation — so conforms is false exactly when the results
list is a non-empty list of Violation entries. -/
theorem claim_C4 (regexTest : String → String → Bool)
    (dataStore shapesStore : List Quad) :
    ((validate regexTest dataStore shapesStore).conforms = true ↔
      (validate regexTest dataStore shapesStore).results = []) ∧
    ∀ v ∈ (validate regexTest dataStore shapesStore).results,
      v.severity = "Violation" := by
  obtain ⟨L, hL, hA⟩ := validate_spec regexTest dataStore shapesStore
  rw [hL]
  exact ⟨by simp [List.isEmpty_iff], hA⟩

/-- C5: a node violating two independent property shapes yields exactly
two report entries, in either declaration order of the shapes; a single
value failing three constraints of one property shape yields exactly
three entries — one per failed constraint, with no short-circuiting. -/
theorem claim_C5 (rt : String → String → Bool) (c f p1 p2 p v d dt pat : String)
    (h1 : p1 ≠ RDF_type) (h2 : p2 ≠ RDF_type) (h10 : p1 ≠ "") (h20 : p2 ≠ "")
    (hc : c ≠ "") (hp1 : p ≠ RDF_type) (hp0 : p ≠ "") (hdt : dt ≠ "")
    (hpat : pat ≠ "") (hd : d ≠ dt) (hrt : rt pat v = false)
    (hv5 : v.length < 5) :
    ((validate rt (typeOnlyDataStore c f) (twoShapesStore c p1 p2)).results.length = 2 ∧
     (validate rt (typeOnlyDataStore c f)
        (twoShapesStoreSwapped c p1 p2)).results.length = 2) ∧
    (validate rt (dtDataStore c f p v d)
        (multiShapesStore c p dt pat)).results.length = 3 :=
  ⟨validate_two_prop_shapes rt c f p1 p2 h1 h2 h10 h20 hc,
   validate_multi_constraint rt c f p v d dt pat hp1 hp0 hdt hpat hc hd hrt hv5⟩

theorem claim_C5_witness :
    ("http://e/p1" ≠ RDF_type) ∧ ("http://e/p2" ≠ RDF_type) ∧
    ("http://e/p1" ≠ "") ∧ ("http://e/p2" ≠ "") ∧ ("http://e/C" ≠ "") ∧
    ("http://e/p" ≠ RDF_type) ∧ ("http://e/p" ≠ "") ∧ ("http://e/d2" ≠ "") ∧
    ("x" ≠ "") ∧ ("http://e/d1" ≠ "http://e/d2") ∧
    ((fun _ _ => false : String → String → Bool) "x" "abc" = false) ∧
    ("abc".length < 5) ∧
    (((validate (fun _ _ => false) (typeOnlyDataStore "http://e/C" "http://e/f")
        (twoShapesStore "http://e/C" "http://e/p1" "http://e/p2")).results.length = 2 ∧
      (validate (fun _ _ => false) (typeOnlyDataStore "http://e/C" "http://e/f")
        (twoShapesStoreSwapped "http://e/C" "http://e/p1" "http://e/p2")).results.length = 2) ∧
     (validate (fun _ _ => false)
        (dtDataStore "http://e/C" "http://e/f" "http://e/p" "abc" "http://e/d1")
        (multiShapesStore "http://e/C" "http://e/p" "http://e/d2" "x")).results.length = 3) :=
  ⟨by decide, by decide, by decide, by decide, by decide, by decide, by decide,
   by decide, by decide, by decide, by decide, by decide,
   claim_C5 _ _ _ _ _ _ _ _ _ _ (by decide) (by decide) (by decide) (by decide)
     (by decide) (by decide) (by decide) (by decide) (by decide) (by decide)
     (by decide) (by decide)⟩

/-- C6: the sh-datatype check is an exact IRI comparison: for a literal
value the validator reports exactly one violation iff the literal's
datatype IRI differs from the constraint's IRI, and zero when they are
equal — no derived-type compatibility. -/
theorem claim_C6 (rt : String → String → Bool) (c f p v d dt : String)
    (hp1 : p ≠ RDF_type) (hp0 : p ≠ "") (hdt : dt ≠ "") (hc : c ≠ "") :
    (validate rt (dtDataStore c f p v d) (dtShapesStore c p dt)).results.length =
      (if d = dt then 0 else 1) :=
  validate_datatype_exact rt c f p v d dt hp1 hp0 hdt hc

theorem claim_C6_witness :
    ("http://e/p" ≠ RDF_type) ∧ ("http://e/p" ≠ "") ∧
    ("http://www.w3.org/2001/XMLSchema#integer" ≠ "") ∧ ("http://e/C" ≠ "") ∧
    (validate (fun _ _ => true)
        (dtDataStore "http://e/C" "http://e/f" "http://e/p" "5"
          "http://www.w3.org/2001/XMLSchema#int")
        (dtShapesStore "http://e/C" "http://e/p"
          "http://www.w3.org/2001/XMLSchema#integer")).results.length =
      (if ("http://www.w3.org/2001/XMLSchema#int" : String) =
          "http://www.w3.org/2001/XMLSchema#integer" then 0 else 1) ∧
    (validate (fun _ _ => true)
        (dtDataStore "http://e/C" "http://e/f" "http://e/p" "5"
          "http://www.w3.org/2001/XMLSchema#integer")
        (dtShapesStore "http://e/C" "http://e/p"
          "http://www.w3.org/2001/XMLSchema#integer")).results.length =
      (if ("http://www.w3.org/2001/XMLSchema#integer" : String) =
          "http://www.w3.org/2001/XMLSchema#integer" then 0 else 1) :=
  ⟨by decide, by decide, by decide, by decide,
   claim_C6 (fun _ _ => true) "http://e/C" "http://e/f" "http://e/p" "5"
     "http://www.w3.org/2001/XMLSchema#int" "http://www.w3.org/2001/XMLSchema#integer"
     (by decide) (by decide) (by decide) (by decide),
   claim_C6 (fun _ _ => true) "http://e/C" "http://e/f" "http://e/p" "5"
     "http://www.w3.org/2001/XMLSchema#integer" "http://www.w3.org/2001/XMLSchema#integer"
     (by decide) (by decide) (by decide) (by decide)⟩

/-- C7: when a document's remote context URL resolves neither through the
registry, the canned table, the cache, a direct fetch nor any CORS
proxy, expand returns a failure whose error message contains the failing
URL — it never proceeds with a silently substituted empty context. -/
theorem claim_C7 (expander : JsVal → Option RemoteDoc → JsVal)
    (fetchFn : String → Option JsVal) (encode : String → String)
    (registry cache : List (String × JsVal)) (doc : JsVal) (url : String)
    (hctx : jsIndex doc "@context" = some (.str url))
    (hurn : startsWithL "urn:context:".data url.data = false)
    (hreg : mapGet registry url = none)
    (hcanned : cannedContexts url = none)
    (hcache : mapGet cache url = none)
    (hdirect : fetchFn url = none)
    (hproxies : ∀ proxyFn ∈ CORS_PROXIES encode, fetchFn (proxyFn url) = none) :
    ∃ e, expand expander fetchFn encode registry cache doc = .failure e ∧
      containsL url.data e.data = true :=
  expand_fails_on_unresolvable expander fetchFn encode registry cache doc url
    hctx hurn hreg hcanned hcache hdirect hproxies

theorem claim_C7_witness :
    jsIndex (JsVal.obj [("@context", JsVal.str "https://missing.example/ctx")])
      "@context" = some (.str "https://missing.example/ctx") ∧
    startsWithL "urn:context:".data "https://missing.example/ctx".data = false ∧
    mapGet [] "https://missing.example/ctx" = none ∧
    cannedContexts "https://missing.example/ctx" = none ∧
    ((fun _ => none : String → Option JsVal) "https://missing.example/ctx" = none) ∧
    (∀ proxyFn ∈ CORS_PROXIES (fun s => s),
      (fun _ => none : String → Option JsVal) (proxyFn "https://missing.example/ctx") = none) ∧
    ∃ e, expand (fun d _ => d) (fun _ => none) (fun s => s) [] []
        (JsVal.obj [("@context", JsVal.str "https://missing.example/ctx")]) =
        .failure e ∧
      containsL "https://missing.example/ctx".data e.data = true :=
  ⟨rfl, by decide, rfl, rfl, rfl, by intro pf hpf; rfl,
   claim_C7 (fun d _ => d) (fun _ => none) (fun s => s) [] []
     (JsVal.obj [("@context", JsVal.str "https://missing.example/ctx")])
     "https://missing.example/ctx" rfl (by decide) rfl rfl rfl rfl
     (by intro pf hpf; rfl)⟩

/-- C8: registerContext mints a urn starting with the urn-context prefix;
resolving that urn through the document loader returns exactly the
document wrapping the registered context object under at-context; and a
urn-prefixed reference absent from the registry fails with the
context-not-found error for every network function — no fallthrough to a
fetch. -/
theorem claim_C8 (fetchFn : String → Option JsVal) (encode : String → String)
    (uuid : String) (registry cache : List (String × JsVal)) (context : JsVal)
    (u : String)
    (hurn : startsWithL "urn:context:".data u.data = true)
    (hreg : mapGet registry u = none) :
    startsWithL "urn:context:".data
      (registerContext uuid registry context).1.data = true ∧
    customLoader fetchFn encode (registerContext uuid registry context).2 cache
      (registerContext uuid registry context).1 =
      .ok ⟨none, JsVal.obj [("@context", context)],
        (registerContext uuid registry context).1⟩ ∧
    customLoader fetchFn encode registry cache u =
      .error ("Context not found in registry: " ++ u) :=
  ⟨registerContext_urn_start uuid registry context,
   customLoader_after_register fetchFn encode uuid registry cache context,
   customLoader_urn_not_found fetchFn encode registry cache u hurn hreg⟩

theorem claim_C8_witness :
    startsWithL "urn:context:".data "urn:context:missing".data = true ∧
    mapGet [] "urn:context:missing" = none ∧
    (startsWithL "urn:context:".data
      (registerContext "123" [] (JsVal.str "ctx")).1.data = true ∧
     customLoader (fun _ => some (JsVal.obj [])) (fun s => s)
        (registerContext "123" [] (JsVal.str "ctx")).2 []
        (registerContext "123" [] (JsVal.str "ctx")).1 =
      .ok ⟨none, JsVal.obj [("@context", JsVal.str "ctx")],
        (registerContext "123" [] (JsVal.str "ctx")).1⟩ ∧
     customLoader (fun _ => some (JsVal.obj [])) (fun s => s) [] []
        "urn:context:missing" =
      .error ("Context not found in registry: " ++ "urn:context:missing")) :=
  ⟨by decide, rfl,
   claim_C8 (fun _ => some (JsVal.obj [])) (fun s => s) "123" [] []
     (JsVal.str "ctx") "urn:context:missing" (by decide) rfl⟩

/-- C9 counterexample: the SHACL validate boundary returns its success
payload under the field named report (part_000 line 291), not data: on
empty stores the returned object is the success-true/report object, and
no object carrying a data field equals it — so the claim's literal
result shape does not hold for the SHACL validate operation. -/
theorem claim_C9_counterexample :
    shaclValidateOp (fun _ _ => true) (.returns []) (.returns []) =
      .returns (JsVal.obj [("success", .bool true),
        ("report", JsVal.obj [("conforms", .bool true), ("results", .arr [])])]) ∧
    ¬ ∃ d, shaclValidateOp (fun _ _ => true) (.returns []) (.returns []) =
        .returns (JsVal.obj [("success", .bool true), ("data", d)]) := by
  constructor
  · rfl
  · rintro ⟨d, h⟩
    simp [shaclValidateOp, okReport, reportToJs, validate, getQuads] at h

/-- C9 (amended): no public operation throws past its own boundary: for
every behaviour of the inner library calls and assembly bodies, throwing
included, each of the nine operations returns a result object — success
true with the payload (carried under the data field by the eight
JsonLdProcessor operations and under the report field by the SHACL
validate) or success false with the error string. -/
theorem claim_C9 (innerE innerF innerFr : JsOutcome JsVal)
    (innerNQ innerCan innerT innerY : JsOutcome String) (tyErr : String)
    (doc context : JsVal) (compactFn : JsVal → JsVal → JsOutcome JsVal)
    (turtleOf : String → JsOutcome String) (regexTest : String → String → Bool)
    (parseData parseShapes : JsOutcome (List Quad)) :
    resultShaped "data" (expandOp innerE) ∧
    resultShaped "data" (compactOp tyErr doc context compactFn) ∧
    resultShaped "data" (flattenOp innerF) ∧
    resultShaped "data" (frameOp innerFr) ∧
    resultShaped "data" (toNQuadsOp innerNQ) ∧
    resultShaped "data" (canonizeOp innerCan) ∧
    resultShaped "data" (toTurtleOp innerT turtleOf) ∧
    resultShaped "data" (toYamlLdOp innerY) ∧
    resultShaped "report" (shaclValidateOp regexTest parseData parseShapes) :=
  ⟨expandOp_shaped innerE, compactOp_shaped tyErr doc context compactFn,
   flattenOp_shaped innerF, frameOp_shaped innerFr, toNQuadsOp_shaped innerNQ,
   canonizeOp_shaped innerCan, toTurtleOp_shaped innerT turtleOf,
   toYamlLdOp_shaped innerY, shaclValidateOp_shaped regexTest parseData parseShapes⟩

/-- C10: a successfully fetched context body that is not an object is
normalized to the empty-context wrapper — and the fetch then succeeds
with that wrapper instead of failing — while a fetched object with no
top-level at-context entry and no context-like member is passed through
unchanged. -/
theorem claim_C10 (fetchFn : String → Option JsVal) (encode : String → String)
    (cache : List (String × JsVal)) (url : String) (doc doc2 : JsVal)
    (hcache : mapGet cache url = none) (hdirect : fetchFn url = some doc)
    (h : failsObjectCheck doc = true)
    (h1 : failsObjectCheck doc2 = false)
    (h2 : (jsIndex doc2 "@context").isSome = false)
    (h3 : (jsKeyVals doc2).any (fun kv => looksLikeCtxEntry kv.2) = false) :
    normalizeContextDocument doc = JsVal.obj [("@context", JsVal.obj [])] ∧
    fetchWithCorsRetry fetchFn encode cache url =
      .ok (JsVal.obj [("@context", JsVal.obj [])]) ∧
    normalizeContextDocument doc2 = doc2 :=
  ⟨normalizeContextDocument_nonobject doc h,
   fetchWithCorsRetry_nonobject fetchFn encode cache url doc hcache hdirect h,
   normalizeContextDocument_passthrough doc2 h1 h2 h3⟩

theorem claim_C10_witness :
    mapGet [] "https://ctx.example/c" = none ∧
    ((fun _ => some (JsVal.num 5) : String → Option JsVal)
      "https://ctx.example/c" = some (JsVal.num 5)) ∧
    failsObjectCheck (JsVal.num 5) = true ∧
    failsObjectCheck (JsVal.obj [("a", JsVal.bool true)]) = false ∧
    (jsIndex (JsVal.obj [("a", JsVal.bool true)]) "@context").isSome = false ∧
    (jsKeyVals (JsVal.obj [("a", JsVal.bool true)])).any
      (fun kv => looksLikeCtxEntry kv.2) = false ∧
    (normalizeContextDocument (JsVal.num 5) =
      JsVal.obj [("@context", JsVal.obj [])] ∧
     fetchWithCorsRetry (fun _ => some (JsVal.num 5)) (fun s => s) []
        "https://ctx.example/c" =
      .ok (JsVal.obj [("@context", JsVal.obj [])]) ∧
     normalizeContextDocument (JsVal.obj [("a", JsVal.bool true)]) =
      JsVal.obj [("a", JsVal.bool true)]) :=
  ⟨rfl, rfl, rfl, rfl, rfl, rfl,
   claim_C10 (fun _ => some (JsVal.num 5)) (fun s => s) []
     "https://ctx.example/c" (JsVal.num 5) (JsVal.obj [("a", JsVal.bool true)])
     rfl rfl rfl rfl rfl rfl⟩
